import Mathlib

/-!
# Verification of the sensor-data QC core (qc/detectors.py, qc/cleaners.py)

Shallow embedding of the detection and cleaning pipeline of the repository.
Numeric model: cell values, timestamps and statistics are exact rationals
standing for the real-number semantics of the Python code; IEEE-754 rounding
is outside the scope of the verified statements.  A missing value (NaN in the
source) is modelled as `none : Option ℚ`; every comparison of a missing value
with a number is false, exactly as NaN comparisons are false in IEEE/pandas.

Comparisons of the form `|x| / sqrt v > t` (z-scores, drift scores) are
embedded without square roots via the equivalent rational test
`t < 0 ∨ t*t*v < x*x` (see `absDivSqrtGt` and its justification lemma).

pandas library calls are embedded by their documented semantics:
`Series.std` with `ddof=1` (sample standard deviation), `Series.quantile`
with linear interpolation on the sorted non-missing values,
`Series.rolling(window, center=True, min_periods=p).mean()` with the fixed
centred window `[i - (w - 1 - (w-1)/2), i + (w-1)/2]` clipped to the series,
`Series.interpolate(method="linear", limit=k)` which fills, per run of
consecutive missing values, only the first `k` positions (forward limit
direction; leading missing runs are never filled, trailing runs are padded
with the last valid value, interior runs are linearly interpolated on
positions), and `DataFrame.sort_values` with its default unstable quicksort,
modelled as a relation (some permutation ordered by the key).
-/

namespace SensorQC

attribute [local semireducible] Rat.add Rat.sub Rat.mul Rat.inv

/-- A cell of a value column: a reading, or a missing value (NaN). -/
abbrev Cell := Option ℚ

/-- Embedding of `series.dropna()`: the non-missing values, in order. -/
def dropna (s : List Cell) : List ℚ := s.filterMap id

/-- Sum of a list of rationals. -/
def qsum (l : List ℚ) : ℚ := l.foldr (· + ·) 0

/-- Embedding of `series.mean()` over an already dropna-ed list. -/
def mean (l : List ℚ) : ℚ := qsum l / (l.length : ℚ)

/-- Squared deviations from the mean; `sampleVar` is `series.std() ** 2`
with the pandas default `ddof=1` (division by `n - 1`). -/
def sampleVar (l : List ℚ) : ℚ :=
  qsum (l.map fun x => (x - mean l) * (x - mean l)) / ((l.length : ℚ) - 1)

/-- Sample variance as pandas computes it: undefined (NaN) on fewer than
2 observations. -/
def sampleVarOpt (l : List ℚ) : Option ℚ :=
  if l.length < 2 then none else some (sampleVar l)

/-- Sorting used by `series.quantile` / `series.median`. -/
def sortQ (l : List ℚ) : List ℚ := List.insertionSort (· ≤ ·) l

/-- Embedding of `series.quantile(q)` (pandas default linear interpolation):
position `q * (n-1)` in the sorted values, linearly interpolated between the
two neighbouring order statistics.  Callers guard `l ≠ []` as pandas returns
NaN there. -/
def quantile (l : List ℚ) (q : ℚ) : ℚ :=
  let a := sortQ l
  let pos : ℚ := q * ((a.length : ℚ) - 1)
  let i : ℕ := (⌊pos⌋).toNat
  let lo := a.getD i 0
  let hi := a.getD (i + 1) lo
  lo + (pos - (i : ℚ)) * (hi - lo)

/-- Embedding of `series.median()` (= the linear 50% quantile). -/
def median (l : List ℚ) : ℚ := quantile l (1 / 2)

/-- Square-root-free embedding of the float comparison `|x| / sqrt v > t`
for `v > 0`: true iff `t < 0`, or `t ≥ 0` and `x*x > t*t*v`. -/
def absDivSqrtGt (x t v : ℚ) : Bool :=
  if t < 0 then true else decide (t * t * v < x * x)

/-- Justification of `absDivSqrtGt`: over the reals it decides exactly
`t < |x| / sqrt v` whenever `v > 0`. -/
theorem absDivSqrtGt_spec (x t v : ℚ) (hv : 0 < v) :
    absDivSqrtGt x t v = true ↔ (t : ℝ) < |(x : ℝ)| / Real.sqrt (v : ℝ) := by
  have hvR : (0 : ℝ) < (v : ℝ) := by exact_mod_cast hv
  have hs : 0 < Real.sqrt (v : ℝ) := Real.sqrt_pos.mpr hvR
  unfold absDivSqrtGt
  by_cases ht : t < 0
  · simp only [if_pos ht, true_iff]
    have h0 : (0 : ℝ) ≤ |(x : ℝ)| / Real.sqrt (v : ℝ) :=
      div_nonneg (abs_nonneg _) hs.le
    have htR : (t : ℝ) < 0 := by exact_mod_cast ht
    exact lt_of_lt_of_le htR h0
  · have htR : (0 : ℝ) ≤ (t : ℝ) := by
      have : (0 : ℚ) ≤ t := le_of_not_lt ht
      exact_mod_cast this
    simp only [if_neg ht, decide_eq_true_eq]
    rw [lt_div_iff₀ hs]
    constructor
    · intro h
      have hR : (t : ℝ) * (t : ℝ) * (v : ℝ) < (x : ℝ) * (x : ℝ) := by exact_mod_cast h
      nlinarith [Real.sq_sqrt hvR.le, Real.sqrt_nonneg (v : ℝ), abs_nonneg (x : ℝ),
        sq_abs (x : ℝ), mul_nonneg htR (Real.sqrt_nonneg (v : ℝ)), abs_mul_abs_self (x : ℝ)]
    · intro h
      have hR : (t : ℝ) * (t : ℝ) * (v : ℝ) < (x : ℝ) * (x : ℝ) := by
        nlinarith [Real.sq_sqrt hvR.le, abs_nonneg (x : ℝ), abs_mul_abs_self (x : ℝ),
          mul_nonneg htR (Real.sqrt_nonneg (v : ℝ))]
      exact_mod_cast hR

/-- The table handed to the core: the timestamp column (already parsed, on a
numeric time axis) plus the named value columns, as in the app which passes a
dataframe together with `timestamp_col` and `value_cols`. -/
structure Table where
  ts : List ℚ
  cols : List (String × List Cell)
deriving DecidableEq

/-- Embedding of `df[c]` for a value column. -/
def getCol (t : Table) (c : String) : List Cell := (t.cols.lookup c).getD []

/-- Embedding of the column assignment `df[c] = f(df[c])` (value semantics). -/
def updateCol (t : Table) (c : String) (f : List Cell → List Cell) : Table :=
  { t with cols := t.cols.map fun p => if p.1 = c then (p.1, f p.2) else p }

/-- The column names of a table, in order. -/
def colNames (t : Table) : List String := t.cols.map Prod.fst

/-- The lengths of the value columns, in order. -/
def colLengths (t : Table) : List ℕ := t.cols.map fun p => p.2.length

/-- Structured payload of the free-form `details` string of an issue.  The
source formats these numbers into text; the embedding keeps the numbers. -/
inductive IssueDetails where
  | timestampGap (gap expected : ℚ)
  | missingValue
  | outlierZScore (value : ℚ)
  | outlierIQR (value lower upper : ℚ)
  | drift (startRow endRow nPoints : ℕ) (maxScoreSq : ℚ)
deriving DecidableEq

/-- One detected issue: a row of the issues dataframe built by the detectors. -/
structure Issue where
  timestamp : ℚ
  column : String
  issueType : String
  details : IssueDetails
deriving DecidableEq

/-! ## Detectors (qc/detectors.py) -/

/-- Embedding of `timestamps.diff()` without its leading NaT: entry `j` is
`ts[j+1] - ts[j]`. -/
def seriesDiffs (ts : List ℚ) : List ℚ := List.zipWith (fun a b => b - a) ts ts.tail

/-- The `Timestamp Gap` issue emitted for the pair `(ts[j], ts[j+1])`. -/
def mkGapIssue (ts : List ℚ) (timestampCol : String) (med : ℚ) (j : ℕ) : Issue :=
  { timestamp := ts.getD (j + 1) 0, column := timestampCol,
    issueType := "Timestamp Gap",
    details := .timestampGap ((seriesDiffs ts).getD j 0) med }

/-- The timestamp-irregularity half of `detect_gaps` (detectors.py lines
14-26): when at least one difference exists, flag the pairs of successive
timestamps whose difference exceeds twice the median difference
(`diffs > median_interval * 2`, attributed to the later timestamp). -/
def gapIssuesOf (df : Table) (timestampCol : String) : List Issue :=
  if 0 < (seriesDiffs df.ts).length then
    ((List.range (seriesDiffs df.ts).length).filter fun j =>
        decide (median (seriesDiffs df.ts) * 2 < (seriesDiffs df.ts).getD j 0)).map
      (mkGapIssue df.ts timestampCol (median (seriesDiffs df.ts)))
  else []

/-- The missing-value half of `detect_gaps` (detectors.py lines 28-37): one
issue per missing cell of every value column. -/
def missingIssues (df : Table) (valueCols : List String) : List Issue :=
  valueCols.flatMap fun c =>
    ((List.range (getCol df c).length).filter fun i =>
        decide ((getCol df c).getD i none = none)).map fun i =>
      { timestamp := df.ts.getD i 0, column := c,
        issueType := "Missing Value (NaN)", details := .missingValue }

/-- Embedding of `detect_gaps` (detectors.py lines 7-39). -/
def detect_gaps (df : Table) (timestampCol : String) (valueCols : List String) : List Issue :=
  gapIssuesOf df timestampCol ++ missingIssues df valueCols

/-- The boolean mask `z_scores.abs() > threshold` of the z-score test for one
channel, including the guards of the source: no flags when the channel has
fewer than 2 non-missing values or zero standard deviation, and a missing
value never compares true.  Shared by the detector (detectors.py 42-71) and
the cleaners (cleaners.py 18-35, 58-78), which recompute exactly this mask. -/
def zFlags (s : List Cell) (threshold : ℚ) : List Bool :=
  let d := dropna s
  if d.length < 2 then List.replicate s.length false
  else
    let m := mean d
    let v := sampleVar d
    if v = 0 then List.replicate s.length false
    else s.map fun x => match x with
      | none => false
      | some xv => absDivSqrtGt (xv - m) threshold v

/-- Issues of the z-score test for one channel: positions whose mask bit is
set and whose value is present (the `pd.notna` re-check of the source). -/
def zscoreColIssues (ts : List ℚ) (c : String) (s : List Cell) (threshold : ℚ) : List Issue :=
  ((List.range s.length).filter fun i =>
      (zFlags s threshold).getD i false && (s.getD i none).isSome).map fun i =>
    { timestamp := ts.getD i 0, column := c, issueType := "Outlier (Z-Score)",
      details := .outlierZScore ((s.getD i none).getD 0) }

/-- Embedding of `detect_outliers_zscore` (detectors.py lines 42-71). -/
def detect_outliers_zscore (df : Table) (timestampCol : String) (valueCols : List String)
    (threshold : ℚ) : List Issue :=
  valueCols.flatMap fun c => zscoreColIssues df.ts c (getCol df c) threshold

/-- The `[lower, upper]` bounds `[Q1 - factor*IQR, Q3 + factor*IQR]` of the
IQR test over the non-missing values of a channel. -/
def iqrBounds (d : List ℚ) (factor : ℚ) : ℚ × ℚ :=
  let q1 := quantile d (1 / 4)
  let q3 := quantile d (3 / 4)
  (q1 - factor * (q3 - q1), q3 + factor * (q3 - q1))

/-- The boolean mask `(df[col] < lower) | (df[col] > upper)` of the IQR test
for one channel, with the source guard: no flags when the channel has fewer
than 4 non-missing values; missing values never compare true.  Shared by the
detector (detectors.py 74-103) and the cleaner (cleaners.py 38-55). -/
def iqrFlags (s : List Cell) (factor : ℚ) : List Bool :=
  let d := dropna s
  if d.length < 4 then List.replicate s.length false
  else
    let b := iqrBounds d factor
    s.map fun x => match x with
      | none => false
      | some xv => decide (xv < b.1) || decide (b.2 < xv)

/-- Issues of the IQR test for one channel. -/
def iqrColIssues (ts : List ℚ) (c : String) (s : List Cell) (factor : ℚ) : List Issue :=
  let d := dropna s
  ((List.range s.length).filter fun i =>
      (iqrFlags s factor).getD i false && (s.getD i none).isSome).map fun i =>
    { timestamp := ts.getD i 0, column := c, issueType := "Outlier (IQR)",
      details := .outlierIQR ((s.getD i none).getD 0) (iqrBounds d factor).1 (iqrBounds d factor).2 }

/-- Embedding of `detect_outliers_iqr` (detectors.py lines 74-103). -/
def detect_outliers_iqr (df : Table) (timestampCol : String) (valueCols : List String)
    (factor : ℚ) : List Issue :=
  valueCols.flatMap fun c => iqrColIssues df.ts c (getCol df c) factor

/-- The cells inside the centred rolling window of width `w` at position `i`:
pandas places the window of `rolling(w, center=True)` at
`[i - (w - 1 - (w-1)/2), i + (w-1)/2]`, clipped to the series (for odd `w`
this is the symmetric window of radius `(w-1)/2`). -/
def centeredWindow (s : List Cell) (w i : ℕ) : List Cell :=
  ((List.range s.length).filter fun j =>
      decide (i - (w - 1 - (w - 1) / 2) ≤ j) && decide (j ≤ i + (w - 1) / 2)).map fun j =>
    s.getD j none

/-- Embedding of `series.rolling(window=w, center=True, min_periods=minp).mean()`
at position `i`: the mean of the non-missing values inside the centred window,
undefined (NaN) when fewer than `minp` (or zero) observations are available. -/
def rollingMean (s : List Cell) (w minp i : ℕ) : Option ℚ :=
  let vals := dropna (centeredWindow s w i)
  if vals.length < minp ∨ vals.length = 0 then none else some (mean vals)

/-- The drift mask `drift_score > threshold` for one channel, where
`drift_score = |rolling_mean - global_mean| / global_std`, rolling over the
full column with `min_periods = window / 2`; positions with an undefined
rolling mean (or an undefined global std, possible only when the window is
at most 1) score NaN and are never flagged. -/
def driftMask (s : List Cell) (window : ℕ) (threshold : ℚ) : List Bool :=
  let d := dropna s
  match sampleVarOpt d with
  | none => List.replicate s.length false
  | some v =>
    (List.range s.length).map fun i =>
      match rollingMean s window (window / 2) i with
      | none => false
      | some rm => absDivSqrtGt (rm - mean d) threshold v

/-- Squared drift score per position (`drift_score ** 2`), used for the
`max deviation` payload of a drift issue; `none` where the score is NaN. -/
def driftScoreSq (s : List Cell) (window : ℕ) : List (Option ℚ) :=
  let d := dropna s
  (List.range s.length).map fun i =>
    match sampleVarOpt d, rollingMean s window (window / 2) i with
    | some v, some rm =>
        if v = 0 then none else some ((rm - mean d) * (rm - mean d) / v)
    | _, _ => none

/-- Maximum of a list of rationals known to be nonnegative (squared scores). -/
def qmax (l : List ℚ) : ℚ := l.foldr max 0

/-- Embedding of the region-grouping loop of `detect_drift` (detectors.py
lines 130-143): a single pass over the mask tracking whether a region is
open (`in_region` = the `some` state, carrying `start_idx`), closing it on a
false bit with end index `idx - 1`, and closing a still-open region at the
end of the series. -/
def driftRegionsAux : List Bool → ℕ → Option ℕ → List (ℕ × ℕ)
  | [], _, none => []
  | [], i, some s => [(s, i - 1)]
  | b :: rest, i, none =>
      if b then driftRegionsAux rest (i + 1) (some i)
      else driftRegionsAux rest (i + 1) none
  | b :: rest, i, some s =>
      if b then driftRegionsAux rest (i + 1) (some s)
      else (s, i - 1) :: driftRegionsAux rest (i + 1) none

/-- The regions (start, end index pairs) of consecutive set bits of a mask. -/
def driftRegions (mask : List Bool) : List (ℕ × ℕ) := driftRegionsAux mask 0 none

/-- The `Drift` issue emitted for one region: attributed to the timestamp of
the middle row `(start + end) / 2`, with the row span, point count and the
maximal (squared) drift score of the region as payload. -/
def mkDriftIssue (ts : List ℚ) (c : String) (scs : List (Option ℚ)) (p : ℕ × ℕ) : Issue :=
  { timestamp := ts.getD ((p.1 + p.2) / 2) 0, column := c, issueType := "Drift",
    details := .drift p.1 p.2 (p.2 - p.1 + 1)
      (qmax ((List.range (p.2 + 1 - p.1)).filterMap fun j => scs.getD (p.1 + j) none)) }

/-- Embedding of the per-channel body of `detect_drift` (detectors.py lines
106-153) as an `Option`: `none` when the channel is skipped by a `continue`
(fewer non-missing values than the window, or zero standard deviation), and
`some issues` when the channel is scored for drift. -/
def detectDriftChannel (ts : List ℚ) (c : String) (s : List Cell) (window : ℕ)
    (threshold : ℚ) : Option (List Issue) :=
  let d := dropna s
  if d.length < window then none
  else if sampleVarOpt d = some 0 then none
  else some ((driftRegions (driftMask s window threshold)).map
    (mkDriftIssue ts c (driftScoreSq s window)))

/-- Embedding of `detect_drift` over all channels. -/
def detect_drift (df : Table) (timestampCol : String) (valueCols : List String)
    (window : ℕ) (threshold : ℚ) : List Issue :=
  valueCols.flatMap fun c => (detectDriftChannel df.ts c (getCol df c) window threshold).getD []

/-- The concatenation built by `run_all_detections` (detectors.py lines
166-178) before sorting: gap/missing issues, then the outlier issues of the
selected method (any selector other than Z-Score and IQR runs both tests,
z-score first), then drift issues. -/
def detectionConcat (df : Table) (timestampCol : String) (valueCols : List String)
    (zscoreThreshold iqrFactor : ℚ) (driftWindow : ℕ) (driftThreshold : ℚ)
    (outlierMethod : String) : List Issue :=
  detect_gaps df timestampCol valueCols ++
  (if outlierMethod = "Z-Score" then
      detect_outliers_zscore df timestampCol valueCols zscoreThreshold
    else if outlierMethod = "IQR" then
      detect_outliers_iqr df timestampCol valueCols iqrFactor
    else
      detect_outliers_zscore df timestampCol valueCols zscoreThreshold ++
      detect_outliers_iqr df timestampCol valueCols iqrFactor) ++
  detect_drift df timestampCol valueCols driftWindow driftThreshold

/-- Non-decreasing timestamp order of an issue list. -/
def sortedByTimestamp (l : List Issue) : Prop := l.Pairwise fun a b => a.timestamp ≤ b.timestamp

/-- Embedding of `run_all_detections` (detectors.py lines 156-182) as a
relation between the input and the returned issue list.  The source sorts
the nonempty concatenation with `DataFrame.sort_values("timestamp")`, whose
default algorithm is numpy quicksort; quicksort is documented as not stable,
so the result is modelled by its contract: some permutation of the
concatenation that is ordered by timestamp.  An empty concatenation is
returned as is (the sort is skipped). -/
def run_all_detections (df : Table) (timestampCol : String) (valueCols : List String)
    (zscoreThreshold iqrFactor : ℚ) (driftWindow : ℕ) (driftThreshold : ℚ)
    (outlierMethod : String) (out : List Issue) : Prop :=
  let combined := detectionConcat df timestampCol valueCols zscoreThreshold iqrFactor
    driftWindow driftThreshold outlierMethod
  (0 < combined.length → combined.Perm out ∧ sortedByTimestamp out) ∧
  (combined.length = 0 → out = combined)

instance (df : Table) (timestampCol : String) (valueCols : List String)
    (zscoreThreshold iqrFactor : ℚ) (driftWindow : ℕ) (driftThreshold : ℚ)
    (outlierMethod : String) (out : List Issue) :
    Decidable (run_all_detections df timestampCol valueCols zscoreThreshold iqrFactor
      driftWindow driftThreshold outlierMethod out) := by
  unfold run_all_detections sortedByTimestamp
  infer_instance

/-- Modelled from the spec: the behaviour §4.5 claims for the pipeline, a
stable sort by timestamp of the concatenation (insertion sort is stable, so
ties keep their emission order).  Used only to compare the claimed behaviour
with the embedded one. -/
def stableSortByTimestamp (l : List Issue) : List Issue :=
  List.insertionSort (fun a b => a.timestamp ≤ b.timestamp) l

/-! ## Cleaners (qc/cleaners.py) -/

/-- The nearest non-missing position strictly before `i`, if any. -/
def prevValidIdx (s : List Cell) (i : ℕ) : Option ℕ :=
  (List.range i).reverse.find? fun j => (s.getD j none).isSome

/-- The nearest non-missing position strictly after `i`, if any. -/
def nextValidIdx (s : List Cell) (i : ℕ) : Option ℕ :=
  ((List.range s.length).filter fun j => decide (i < j)).find? fun j => (s.getD j none).isSome

/-- The number of consecutive missing cells immediately before position `i`. -/
def missingRunBefore (s : List Cell) : ℕ → ℕ
  | 0 => 0
  | i + 1 => if s.getD i none = none then missingRunBefore s i + 1 else 0

/-- The value linear interpolation would put at a missing position `i`
(`np.interp` on positions, as pandas `method="linear"` ignores the index):
between the nearest surrounding non-missing values when both exist, clamped
to the last valid value when only a preceding one exists, and undefined
before the first valid value. -/
def interpAt (s : List Cell) (i : ℕ) : Option ℚ :=
  match prevValidIdx s i, nextValidIdx s i with
  | some p, some q =>
      (match s.getD p none, s.getD q none with
       | some vp, some vq => some (vp + (vq - vp) * (((i : ℚ) - (p : ℚ)) / ((q : ℚ) - (p : ℚ))))
       | _, _ => none)
  | some p, none => s.getD p none
  | none, _ => none

/-- Embedding of `series.interpolate(method="linear", limit=maxGap)` (used by
cleaners.py line 14): a missing position is filled with its interpolated
value only when fewer than `maxGap` consecutive missing cells precede it,
i.e. only the first `maxGap` positions of each missing run are filled
(pandas documents that a longer run is partially filled). -/
def interpolateCol (s : List Cell) (maxGap : ℕ) : List Cell :=
  (List.range s.length).map fun i =>
    match s.getD i none with
    | some x => some x
    | none => if missingRunBefore s i < maxGap then interpAt s i else none

/-- The copy-then-update-columns shape shared by all four cleaners: start
from a copy of the table and reassign each value column in turn
(`cleaned = df.copy(); for col in value_cols: cleaned[col] = ...`). -/
def copyUpdate (df : Table) (g : String → List Cell → List Cell) (valueCols : List String) : Table :=
  valueCols.foldl (fun acc c => updateCol acc c (g c)) df

/-- Embedding of `interpolate_gaps` (cleaners.py lines 7-15). -/
def interpolate_gaps (df : Table) (valueCols : List String) (maxGap : ℕ) : Table :=
  copyUpdate df (fun _ s => interpolateCol s maxGap) valueCols

/-- Replacement of the masked positions of a column by missing values, the
effect of `cleaned.loc[mask, col] = np.nan`. -/
def removeByFlags (s : List Cell) (flags : List Bool) : List Cell :=
  (List.range s.length).map fun i => if flags.getD i false then none else s.getD i none

/-- Embedding of `remove_outliers_zscore` (cleaners.py lines 18-35): null
out the positions flagged by the z-score mask, channel by channel. -/
def remove_outliers_zscore (df : Table) (valueCols : List String) (threshold : ℚ) : Table :=
  copyUpdate df (fun _ s => removeByFlags s (zFlags s threshold)) valueCols

/-- Embedding of `remove_outliers_iqr` (cleaners.py lines 38-55). -/
def remove_outliers_iqr (df : Table) (valueCols : List String) (factor : ℚ) : Table :=
  copyUpdate df (fun _ s => removeByFlags s (iqrFlags s factor)) valueCols

/-- One column of `replace_outliers_rolling`: flagged positions receive the
centred rolling mean with `min_periods=1`, computed over the original column
(the rolling series is built before the substitution). -/
def rollingReplaceCol (s : List Cell) (threshold : ℚ) (window : ℕ) : List Cell :=
  (List.range s.length).map fun i =>
    if (zFlags s threshold).getD i false then rollingMean s window 1 i else s.getD i none

/-- Embedding of `replace_outliers_rolling` (cleaners.py lines 58-78). -/
def replace_outliers_rolling (df : Table) (valueCols : List String) (threshold : ℚ)
    (window : ℕ) : Table :=
  copyUpdate df (fun _ s => rollingReplaceCol s threshold window) valueCols

/-- Step 1 of `clean_series` (cleaners.py lines 94-101): the outlier-handling
dispatch.  Note the two `else` branches of the source: an action other than
`Remove (set NaN)` goes to the rolling replacement, and under removal a
method other than `Z-Score` (including `Both`) goes to the IQR removal. -/
def cleanOutlierStep (df : Table) (valueCols : List String) (outlierMethod outlierAction : String)
    (zscoreThreshold iqrFactor : ℚ) (rollingWindow : ℕ) : Table :=
  if outlierAction = "Remove (set NaN)" then
    if outlierMethod = "Z-Score" then remove_outliers_zscore df valueCols zscoreThreshold
    else remove_outliers_iqr df valueCols iqrFactor
  else replace_outliers_rolling df valueCols zscoreThreshold rollingWindow

/-- Embedding of `clean_series` (cleaners.py lines 81-106): outlier handling,
then gap interpolation. -/
def clean_series (df : Table) (valueCols : List String) (outlierMethod outlierAction : String)
    (zscoreThreshold iqrFactor : ℚ) (rollingWindow interpolateMaxGap : ℕ) : Table :=
  interpolate_gaps
    (cleanOutlierStep df valueCols outlierMethod outlierAction zscoreThreshold iqrFactor
      rollingWindow)
    valueCols interpolateMaxGap

/-! ## Mutation model

Python dataframes are mutable heap objects; `df.copy()` allocates an
independent one and `cleaned[col] = ...` / `cleaned.loc[...] = ...` write in
place through the reference.  To make the frame condition of the pipelines
expressible, the functions are also translated against an explicit heap of
tables: references are indices, `df.copy()` allocates, column assignment
writes at the reference of the local `cleaned`.  The detectors perform no
write at all, which the translation makes visible by returning the heap
unchanged. -/

/-- A heap of dataframes. -/
abbrev Heap := List Table

/-- Dereference (valid references only; default for totality). -/
def heapGet (h : Heap) (r : ℕ) : Table := h.getD r { ts := [], cols := [] }

/-- Embedding of `df.copy()`: allocate an independent table. -/
def heapAlloc (h : Heap) (t : Table) : Heap × ℕ := (h ++ [t], h.length)

/-- In-place write through a reference. -/
def heapWrite (h : Heap) (r : ℕ) (t : Table) : Heap := h.set r t

/-- The stateful copy-then-update-columns shape of the four cleaners:
allocate a copy of the input, then write each column assignment through the
reference of the copy. -/
def copyUpdateS (h : Heap) (df : ℕ) (g : String → List Cell → List Cell)
    (valueCols : List String) : Heap × ℕ :=
  let a := heapAlloc h (heapGet h df)
  (valueCols.foldl
    (fun hh c => heapWrite hh a.2 (updateCol (heapGet hh a.2) c (g c))) a.1, a.2)

/-- Stateful translation of `remove_outliers_zscore`. -/
def remove_outliers_zscoreS (h : Heap) (df : ℕ) (valueCols : List String)
    (threshold : ℚ) : Heap × ℕ :=
  copyUpdateS h df (fun _ s => removeByFlags s (zFlags s threshold)) valueCols

/-- Stateful translation of `remove_outliers_iqr`. -/
def remove_outliers_iqrS (h : Heap) (df : ℕ) (valueCols : List String)
    (factor : ℚ) : Heap × ℕ :=
  copyUpdateS h df (fun _ s => removeByFlags s (iqrFlags s factor)) valueCols

/-- Stateful translation of `replace_outliers_rolling`. -/
def replace_outliers_rollingS (h : Heap) (df : ℕ) (valueCols : List String)
    (threshold : ℚ) (window : ℕ) : Heap × ℕ :=
  copyUpdateS h df (fun _ s => rollingReplaceCol s threshold window) valueCols

/-- Stateful translation of `interpolate_gaps`. -/
def interpolate_gapsS (h : Heap) (df : ℕ) (valueCols : List String)
    (maxGap : ℕ) : Heap × ℕ :=
  copyUpdateS h df (fun _ s => interpolateCol s maxGap) valueCols

/-- Stateful translation of the outlier dispatch of `clean_series` (lines
95-101 of the source), mirroring `cleanOutlierStep`. -/
def cleanOutlierStepS (h : Heap) (df : ℕ) (valueCols : List String)
    (outlierMethod outlierAction : String) (zscoreThreshold iqrFactor : ℚ)
    (rollingWindow : ℕ) : Heap × ℕ :=
  if outlierAction = "Remove (set NaN)" then
    if outlierMethod = "Z-Score" then
      remove_outliers_zscoreS h df valueCols zscoreThreshold
    else remove_outliers_iqrS h df valueCols iqrFactor
  else replace_outliers_rollingS h df valueCols zscoreThreshold rollingWindow

/-- Stateful translation of `clean_series`: `cleaned = df.copy()` (its own
copy, line 92 of the source), the outlier dispatch (each helper copies
again), then interpolation. -/
def clean_seriesS (h : Heap) (df : ℕ) (valueCols : List String)
    (outlierMethod outlierAction : String) (zscoreThreshold iqrFactor : ℚ)
    (rollingWindow interpolateMaxGap : ℕ) : Heap × ℕ :=
  let a := heapAlloc h (heapGet h df)
  let b := cleanOutlierStepS a.1 a.2 valueCols outlierMethod outlierAction zscoreThreshold
    iqrFactor rollingWindow
  interpolate_gapsS b.1 b.2 valueCols interpolateMaxGap

/-- Stateful translation of the detection pass: the detectors only read the
table (the source assigns to no dataframe cell), so the heap comes back
untouched; the later sort acts on the separate issues frame, not the input. -/
def run_all_detectionsS (h : Heap) (df : ℕ) (timestampCol : String)
    (valueCols : List String) (zscoreThreshold iqrFactor : ℚ) (driftWindow : ℕ)
    (driftThreshold : ℚ) (outlierMethod : String) : Heap × List Issue :=
  (h, detectionConcat (heapGet h df) timestampCol valueCols zscoreThreshold iqrFactor
    driftWindow driftThreshold outlierMethod)

/-! ## General helper lemmas -/

/-- Reading a list of false bits yields false at every index. -/
lemma getD_false_of_all {l : List Bool} (h : ∀ b ∈ l, b = false) (i : ℕ) :
    l.getD i false = false := by
  by_cases hi : i < l.length
  · rw [List.getD_eq_getElem l false hi]
    exact h _ (l.getElem_mem hi)
  · exact List.getD_eq_default l false (le_of_not_lt hi)

/-- A sum of nonnegative rationals is nonnegative. -/
lemma qsum_nonneg {l : List ℚ} (h : ∀ x ∈ l, 0 ≤ x) : 0 ≤ qsum l := by
  induction l with
  | nil => simp [qsum]
  | cons a t ih =>
      have ha := h a (by simp)
      have ht : 0 ≤ qsum t := ih fun x hx => h x (by simp [hx])
      show 0 ≤ a + qsum t
      linarith

/-- A zero sum of nonnegative rationals has only zero summands. -/
lemma eq_zero_of_qsum_zero {l : List ℚ} (hnn : ∀ x ∈ l, 0 ≤ x) (h0 : qsum l = 0) :
    ∀ x ∈ l, x = 0 := by
  induction l with
  | nil => simp
  | cons a t ih =>
      have ha := hnn a (by simp)
      have ht : 0 ≤ qsum t := qsum_nonneg fun x hx => hnn x (by simp [hx])
      have hsum : a + qsum t = 0 := h0
      have ha0 : a = 0 := by linarith
      intro x hx
      rcases List.mem_cons.mp hx with hx | hx
      · exact hx ▸ ha0
      · exact ih (fun y hy => hnn y (by simp [hy])) (by linarith) x hx

/-- Zero sample variance on at least two observations forces every value to
equal the mean. -/
lemma allEq_of_sampleVar_zero {l : List ℚ} (hlen : 2 ≤ l.length)
    (hv : sampleVar l = 0) : ∀ x ∈ l, x = mean l := by
  have hden : ((l.length : ℚ) - 1) ≠ 0 := by
    have : (2 : ℚ) ≤ (l.length : ℚ) := by exact_mod_cast hlen
    intro h
    have : (l.length : ℚ) = 1 := by linarith
    linarith
  have hsq : qsum (l.map fun x => (x - mean l) * (x - mean l)) = 0 := by
    unfold sampleVar at hv
    rcases div_eq_zero_iff.mp hv with h | h
    · exact h
    · exact absurd h hden
  have hnn : ∀ y ∈ l.map fun x => (x - mean l) * (x - mean l), 0 ≤ y := by
    intro y hy
    rcases List.mem_map.mp hy with ⟨x, _, rfl⟩
    exact mul_self_nonneg _
  intro x hx
  have hx0 : (x - mean l) * (x - mean l) = 0 :=
    eq_zero_of_qsum_zero hnn hsq _ (List.mem_map.mpr ⟨x, hx, rfl⟩)
  have := mul_self_eq_zero.mp hx0
  linarith

/-- A quantile of a constant list is that constant, for `0 ≤ q ≤ 1`. -/
lemma quantile_const {l : List ℚ} {c : ℚ} (q : ℚ) (hne : l ≠ []) (hq0 : 0 ≤ q)
    (hq1 : q ≤ 1) (hc : ∀ x ∈ l, x = c) : quantile l q = c := by
  have hperm : (sortQ l).Perm l := List.perm_insertionSort _ l
  have hca : ∀ x ∈ sortQ l, x = c := fun x hx => hc x (hperm.mem_iff.mp hx)
  have hpos : 0 < (sortQ l).length := by
    rw [hperm.length_eq]
    exact List.length_pos.mpr hne
  have hn1 : (1 : ℚ) ≤ ((sortQ l).length : ℚ) := by exact_mod_cast hpos
  have hposle : q * (((sortQ l).length : ℚ) - 1) ≤ ((sortQ l).length : ℚ) - 1 := by nlinarith
  have hfloorle : ⌊q * (((sortQ l).length : ℚ) - 1)⌋ ≤ ((sortQ l).length : ℤ) - 1 := by
    have h1 : (⌊q * (((sortQ l).length : ℚ) - 1)⌋ : ℚ) ≤ ((sortQ l).length : ℚ) - 1 :=
      le_trans (Int.floor_le _) hposle
    exact_mod_cast h1
  have hi : (⌊q * (((sortQ l).length : ℚ) - 1)⌋).toNat < (sortQ l).length := by omega
  have hlo : (sortQ l).getD (⌊q * (((sortQ l).length : ℚ) - 1)⌋).toNat 0 = c := by
    rw [List.getD_eq_getElem _ 0 hi]
    exact hca _ ((sortQ l).getElem_mem hi)
  have hhi : (sortQ l).getD ((⌊q * (((sortQ l).length : ℚ) - 1)⌋).toNat + 1)
      ((sortQ l).getD (⌊q * (((sortQ l).length : ℚ) - 1)⌋).toNat 0) = c := by
    by_cases hi2 : (⌊q * (((sortQ l).length : ℚ) - 1)⌋).toNat + 1 < (sortQ l).length
    · rw [List.getD_eq_getElem _ _ hi2]
      exact hca _ ((sortQ l).getElem_mem hi2)
    · rw [List.getD_eq_default _ _ (le_of_not_lt hi2)]
      exact hlo
  simp only [quantile]
  rw [hhi, hlo]
  ring

/-! ## Claim C1 -/

/-- C1, counterexample.  On the column `[0,0,0,0,0,0,0,1]` the z-score test
flags nothing (the squared z-score of the value 1 is 49/8 < 9), yet the
cleaning path with method `Both` and action `Remove (set NaN)` sets position
7 to missing: during cleaning the `Both` selector reaches the IQR removal,
not the z-score removal, so the positions set to missing are not those
flagged by the z-score test. -/
theorem both_remove_sets_non_zscore_position_missing :
    detect_outliers_zscore
        ⟨[0, 1, 2, 3, 4, 5, 6, 7],
         [("v", [some 0, some 0, some 0, some 0, some 0, some 0, some 0, some 1])]⟩
        "time" ["v"] 3 = [] ∧
    zFlags [some 0, some 0, some 0, some 0, some 0, some 0, some 0, some 1] 3 =
      List.replicate 8 false ∧
    (getCol (cleanOutlierStep
        ⟨[0, 1, 2, 3, 4, 5, 6, 7],
         [("v", [some 0, some 0, some 0, some 0, some 0, some 0, some 0, some 1])]⟩
        ["v"] "Both" "Remove (set NaN)" 3 (3 / 2) 10) "v").getD 7 none = none ∧
    [some 0, some 0, some 0, some 0, some 0, some 0, some 0, some 1].getD 7 none = some 1 := by
  refine ⟨by decide, by decide, by decide, by decide⟩

/-- C1, amended.  With action `Remove (set NaN)` and method `Both`, the
cleaning path applies exactly the IQR removal (the `Both` selector falls into
the `else` branch of cleaners.py lines 96-99), and the positions made missing
in each cleaned column are exactly the originally missing ones plus the
positions flagged by the IQR test. -/
theorem both_remove_applies_iqr (df : Table) (valueCols : List String)
    (zscoreThreshold iqrFactor : ℚ) (rollingWindow : ℕ) :
    cleanOutlierStep df valueCols "Both" "Remove (set NaN)" zscoreThreshold iqrFactor
        rollingWindow = remove_outliers_iqr df valueCols iqrFactor ∧
    ∀ (s : List Cell) (factor : ℚ) (i : ℕ),
      (removeByFlags s (iqrFlags s factor)).getD i none = none ↔
        (s.getD i none = none ∨ (iqrFlags s factor).getD i false = true) := by
  constructor
  · simp [cleanOutlierStep]
  · intro s factor i
    by_cases hi : i < s.length
    · have hmap : (removeByFlags s (iqrFlags s factor)).getD i none =
          (if (iqrFlags s factor).getD i false then none else s.getD i none) := by
        have hlen : i < (removeByFlags s (iqrFlags s factor)).length := by
          simpa [removeByFlags] using hi
        rw [List.getD_eq_getElem _ _ hlen]
        simp [removeByFlags]
      rw [hmap]
      by_cases hf : (iqrFlags s factor).getD i false = true
      · rw [if_pos hf]
        exact ⟨fun _ => Or.inr hf, fun _ => rfl⟩
      · rw [if_neg hf]
        exact ⟨Or.inl, fun h => h.resolve_right hf⟩
    · have h1 : (removeByFlags s (iqrFlags s factor)).getD i none = none := by
        apply List.getD_eq_default
        simpa [removeByFlags] using le_of_not_lt hi
      have h2 : s.getD i none = none := List.getD_eq_default _ _ (le_of_not_lt hi)
      exact iff_of_true h1 (Or.inl h2)

/-! ## Claim C2 -/

/-- C2, evaluation at the failing input.  For the column `[1, NaN, NaN, 3]`
with `max_gap = 1`, the run of 2 consecutive missing values is longer than
`max_gap`, yet the interpolation fills its first position with 5/3 (pandas
`interpolate(limit=1)` partially fills longer runs); only the remaining
positions of the run stay missing.  This contradicts the claim (and the
docstring of `interpolate_gaps`) that such a run is left entirely missing. -/
theorem interpolate_partially_fills_long_run :
    interpolateCol [some 1, none, none, some 3] 1 =
      [some 1, some (5 / 3), none, some 3] ∧
    interpolate_gaps ⟨[0, 1, 2, 3], [("v", [some 1, none, none, some 3])]⟩ ["v"] 1 =
      ⟨[0, 1, 2, 3], [("v", [some 1, some (5 / 3), none, some 3])]⟩ := by
  refine ⟨by decide, by decide⟩

/-! ## Claim C5 -/

/-- C5, counterexample.  On the series `[1,2,3,100,4,5]` with z-score
threshold 3 the detector flags nothing at all — the squared z-score of 100
is 235225/56526 ≈ 4.16 < 9 (with 6 points and the sample standard deviation
of pandas, no |z| can exceed 5/√6 ≈ 2.04) — and the cleaning pipeline with
`Remove (set NaN)` leaves 100 in place instead of replacing it by a value
strictly between 3 and 4. -/
theorem series_100_not_flagged :
    detect_outliers_zscore
        ⟨[0, 1, 2, 3, 4, 5],
         [("v", [some 1, some 2, some 3, some 100, some 4, some 5])]⟩ "time" ["v"] 3 = [] ∧
    (getCol (clean_series
        ⟨[0, 1, 2, 3, 4, 5],
         [("v", [some 1, some 2, some 3, some 100, some 4, some 5])]⟩
        ["v"] "Z-Score" "Remove (set NaN)" 3 (3 / 2) 10 5) "v").getD 3 none = some 100 := by
  refine ⟨by decide, by decide⟩

/-- C5, amended.  On `[1,2,3,100,4,5]` with threshold 3 and method Z-Score,
the z-score test yields no issue for the channel, and `RemoveSetMissing`
followed by the gap interpolator returns the table unchanged, 100 included. -/
theorem series_100_unchanged :
    zscoreColIssues [0, 1, 2, 3, 4, 5] "v"
        [some 1, some 2, some 3, some 100, some 4, some 5] 3 = [] ∧
    clean_series
        ⟨[0, 1, 2, 3, 4, 5],
         [("v", [some 1, some 2, some 3, some 100, some 4, some 5])]⟩
        ["v"] "Z-Score" "Remove (set NaN)" 3 (3 / 2) 10 5 =
      ⟨[0, 1, 2, 3, 4, 5],
       [("v", [some 1, some 2, some 3, some 100, some 4, some 5])]⟩ := by
  refine ⟨by decide, by decide⟩

/-! ## Claim C6 -/

/-- C6, counterexample.  The channel `[1, 2, NaN]` has series length 3 ≥
window 3 and nonzero standard deviation over its non-missing values
(variance 1/2), yet the drift detector skips it: the length the source
compares against the window is the number of non-missing values (2 here),
not the series length. -/
theorem drift_skips_full_length_channel :
    ([some 1, some 2, none] : List Cell).length = 3 ∧
    sampleVarOpt (dropna [some 1, some 2, none]) = some (1 / 2) ∧
    (1 / 2 : ℚ) ≠ 0 ∧
    detectDriftChannel [0, 1, 2] "v" [some 1, some 2, none] 3 2 = none := by
  refine ⟨by decide, by decide, by decide, by decide⟩

/-- C6, amended.  The drift detector scores a channel (rather than skipping
it) if and only if the number of its non-missing values is at least the
window size and the sample variance over the non-missing values is not zero
(an undefined variance — fewer than two observations, reachable only for
window ≤ 1 — compares unequal to zero, as NaN does in the source). -/
theorem drift_processed_iff (ts : List ℚ) (c : String) (s : List Cell)
    (window : ℕ) (threshold : ℚ) :
    (detectDriftChannel ts c s window threshold).isSome ↔
      (window ≤ (dropna s).length ∧ sampleVarOpt (dropna s) ≠ some 0) := by
  unfold detectDriftChannel
  by_cases h1 : (dropna s).length < window
  · simp [h1, Nat.not_le.mpr h1]
  · by_cases h2 : sampleVarOpt (dropna s) = some 0
    · simp [h1, h2]
    · simp [h1, h2, Nat.le_of_not_lt h1]

/-! ## Claim C3 -/

/-- C3, counterexample.  The selectors `Bogus` and `Garbage` are outside the
enumerated sets, yet neither pipeline surfaces a failure: the detection
pipeline treats the unknown method exactly like `Both` and relates the input
to an ordinary issue list, and the cleaning pipeline returns an ordinary
cleaned table, identical to the one produced by the enumerated selectors it
silently falls back to.  (No code path of `run_all_detections` or
`clean_series` raises: the `if/elif/else` dispatches have catch-all `else`
branches, which is why the embedded functions are total.) -/
theorem invalid_selectors_silently_accepted :
    ("Bogus" ∉ (["Z-Score", "IQR", "Both"] : List String)) ∧
    ("Garbage" ∉ (["Replace with rolling mean", "Remove (set NaN)"] : List String)) ∧
    detectionConcat ⟨[0, 1], [("v", [some 1, some 2])]⟩ "time" ["v"] 3 (3 / 2) 50 2 "Bogus" =
      detectionConcat ⟨[0, 1], [("v", [some 1, some 2])]⟩ "time" ["v"] 3 (3 / 2) 50 2 "Both" ∧
    (∃ out, run_all_detections ⟨[0, 1], [("v", [some 1, some 2])]⟩ "time" ["v"]
      3 (3 / 2) 50 2 "Bogus" out) ∧
    clean_series ⟨[0, 1], [("v", [some 1, some 2])]⟩ ["v"] "Bogus" "Garbage" 3 (3 / 2) 10 5 =
      clean_series ⟨[0, 1], [("v", [some 1, some 2])]⟩ ["v"] "Z-Score"
        "Replace with rolling mean" 3 (3 / 2) 10 5 := by
  exact ⟨by decide, by decide, by decide, ⟨[], by decide⟩, by decide⟩

/-- C3, amended.  A method selector outside the enumerated set is silently
accepted: the detection pipeline treats it exactly like `Both`, and in the
cleaning pipeline an action other than `Remove (set NaN)` falls back to the
rolling-mean replacement while, under removal, a method other than `Z-Score`
falls back to the IQR removal.  No failure is surfaced to the caller. -/
theorem invalid_selector_fallbacks :
    (∀ (df : Table) (tc : String) (vc : List String) (zt iqf : ℚ) (dw : ℕ)
        (dth : ℚ) (m : String), m ≠ "Z-Score" → m ≠ "IQR" →
        detectionConcat df tc vc zt iqf dw dth m =
          detectionConcat df tc vc zt iqf dw dth "Both") ∧
    (∀ (df : Table) (vc : List String) (m a : String) (zt iqf : ℚ) (rollw mg : ℕ),
        a ≠ "Remove (set NaN)" →
        clean_series df vc m a zt iqf rollw mg =
          interpolate_gaps (replace_outliers_rolling df vc zt rollw) vc mg) ∧
    (∀ (df : Table) (vc : List String) (m : String) (zt iqf : ℚ) (rollw mg : ℕ),
        m ≠ "Z-Score" →
        clean_series df vc m "Remove (set NaN)" zt iqf rollw mg =
          interpolate_gaps (remove_outliers_iqr df vc iqf) vc mg) := by
  refine ⟨?_, ?_, ?_⟩
  · intro df tc vc zt iqf dw dth m hm1 hm2
    unfold detectionConcat
    rw [if_neg hm1, if_neg hm2, if_neg (by decide : ¬("Both" : String) = "Z-Score"),
      if_neg (by decide : ¬("Both" : String) = "IQR")]
  · intro df vc m a zt iqf rollw mg ha
    unfold clean_series cleanOutlierStep
    rw [if_neg ha]
  · intro df vc m zt iqf rollw mg hm
    unfold clean_series cleanOutlierStep
    rw [if_pos rfl, if_neg hm]

/-- C3, witness for the amended statement at concrete invalid selectors. -/
theorem invalid_selector_fallbacks_witness :
    detectionConcat ⟨[0, 1], [("v", [some 1, some 2])]⟩ "time" ["v"] 3 (3 / 2) 50 2 "Bogus" =
      detectionConcat ⟨[0, 1], [("v", [some 1, some 2])]⟩ "time" ["v"] 3 (3 / 2) 50 2 "Both" ∧
    clean_series ⟨[0, 1], [("v", [some 1, some 2])]⟩ ["v"] "Z-Score" "Garbage" 3 (3 / 2) 10 5 =
      interpolate_gaps
        (replace_outliers_rolling ⟨[0, 1], [("v", [some 1, some 2])]⟩ ["v"] 3 10) ["v"] 5 ∧
    clean_series ⟨[0, 1], [("v", [some 1, some 2])]⟩ ["v"] "Both" "Remove (set NaN)" 3 (3 / 2) 10 5 =
      interpolate_gaps
        (remove_outliers_iqr ⟨[0, 1], [("v", [some 1, some 2])]⟩ ["v"] (3 / 2)) ["v"] 5 :=
  ⟨invalid_selector_fallbacks.1 ⟨[0, 1], [("v", [some 1, some 2])]⟩ "time" ["v"] 3 (3 / 2) 50 2
      "Bogus" (by decide) (by decide),
   invalid_selector_fallbacks.2.1 ⟨[0, 1], [("v", [some 1, some 2])]⟩ ["v"] "Z-Score" "Garbage"
      3 (3 / 2) 10 5 (by decide),
   invalid_selector_fallbacks.2.2 ⟨[0, 1], [("v", [some 1, some 2])]⟩ ["v"] "Both"
      3 (3 / 2) 10 5 (by decide)⟩

/-! ## Claim C7 -/

/-- Every issue of the missing-value half of the gap detector carries the
missing-value issue type. -/
lemma missingIssues_issueType {df : Table} {vc : List String} {x : Issue}
    (h : x ∈ missingIssues df vc) : x.issueType = "Missing Value (NaN)" := by
  unfold missingIssues at h
  rcases List.mem_flatMap.mp h with ⟨c, _, hc⟩
  rcases List.mem_map.mp hc with ⟨i, _, rfl⟩
  rfl

/-- C7.  The gap detector takes the median of the successive timestamp
differences and flags a `Timestamp Gap` exactly at the pairs whose difference
strictly exceeds twice that median, attributing the issue to the later
timestamp of the pair (`mkGapIssue` reads `ts[j+1]`); with fewer than two
timestamps no gap is flagged; and on 1-minute intervals with one 10-minute
jump it emits exactly one issue, at the timestamp following the jump. -/
theorem gap_detector_spec :
    (∀ (df : Table) (tc : String) (vc : List String) (j : ℕ), j + 1 < df.ts.length →
      (median (seriesDiffs df.ts) * 2 < (seriesDiffs df.ts).getD j 0 ↔
        mkGapIssue df.ts tc (median (seriesDiffs df.ts)) j ∈ detect_gaps df tc vc)) ∧
    (∀ (df : Table) (tc : String) (vc : List String), df.ts.length < 2 →
      (detect_gaps df tc vc).countP (fun x => x.issueType == "Timestamp Gap") = 0) ∧
    detect_gaps
        ⟨[0, 1, 2, 3, 13, 14, 15],
         [("v", [some 1, some 1, some 1, some 1, some 1, some 1, some 1])]⟩ "time" ["v"] =
      [{ timestamp := 13, column := "time", issueType := "Timestamp Gap",
         details := .timestampGap 10 1 }] := by
  refine ⟨?_, ?_, by decide⟩
  · intro df tc vc j hj
    have hds : (seriesDiffs df.ts).length = df.ts.length - 1 := by
      simp [seriesDiffs, List.length_zipWith]
    have hjd : j < (seriesDiffs df.ts).length := by omega
    have h0 : 0 < (seriesDiffs df.ts).length := by omega
    constructor
    · intro h
      apply List.mem_append_left
      unfold gapIssuesOf
      rw [if_pos h0]
      exact List.mem_map_of_mem _
        (List.mem_filter.mpr ⟨List.mem_range.mpr hjd, by simpa using h⟩)
    · intro h
      rcases List.mem_append.mp h with h | h
      · unfold gapIssuesOf at h
        rw [if_pos h0] at h
        rcases List.mem_map.mp h with ⟨j2, hj2, heq⟩
        have hdeq : (seriesDiffs df.ts).getD j2 0 = (seriesDiffs df.ts).getD j 0 := by
          have hdet := congrArg Issue.details heq
          simp only [mkGapIssue, IssueDetails.timestampGap.injEq] at hdet
          exact hdet.1
        have hpred := (List.mem_filter.mp hj2).2
        simp only [decide_eq_true_eq] at hpred
        rw [hdeq] at hpred
        exact hpred
      · have htype := missingIssues_issueType h
        have : (mkGapIssue df.ts tc (median (seriesDiffs df.ts)) j).issueType =
            "Timestamp Gap" := rfl
        rw [this] at htype
        exact absurd htype (by decide)
  · intro df tc vc h2
    rw [List.countP_eq_zero]
    intro a ha
    rcases List.mem_append.mp ha with h | h
    · unfold gapIssuesOf at h
      have hds : (seriesDiffs df.ts).length = df.ts.length - 1 := by
        simp [seriesDiffs, List.length_zipWith]
      rw [if_neg (by omega)] at h
      exact absurd h (List.not_mem_nil a)
    · rw [missingIssues_issueType h]
      decide

/-- C7, witness: the general halves applied at the concrete jump series and
at a one-element series. -/
theorem gap_detector_spec_witness :
    (median (seriesDiffs ([0, 1, 2, 3, 13, 14, 15] : List ℚ)) * 2 <
        (seriesDiffs ([0, 1, 2, 3, 13, 14, 15] : List ℚ)).getD 3 0 ↔
      mkGapIssue [0, 1, 2, 3, 13, 14, 15] "time"
          (median (seriesDiffs ([0, 1, 2, 3, 13, 14, 15] : List ℚ))) 3 ∈
        detect_gaps
          ⟨[0, 1, 2, 3, 13, 14, 15],
           [("v", [some 1, some 1, some 1, some 1, some 1, some 1, some 1])]⟩ "time" ["v"]) ∧
    (detect_gaps ⟨[7], [("v", [some 1])]⟩ "time" ["v"]).countP
      (fun x => x.issueType == "Timestamp Gap") = 0 :=
  ⟨gap_detector_spec.1
      ⟨[0, 1, 2, 3, 13, 14, 15],
       [("v", [some 1, some 1, some 1, some 1, some 1, some 1, some 1])]⟩
      "time" ["v"] 3 (by decide),
   gap_detector_spec.2.1 ⟨[7], [("v", [some 1])]⟩ "time" ["v"] (by decide)⟩

/-! ## Claim C8 -/

/-- The z-score test emits nothing when its mask is everywhere false. -/
lemma zscoreColIssues_eq_nil {ts : List ℚ} {c : String} {s : List Cell} {t : ℚ}
    (h : ∀ i, (zFlags s t).getD i false = false) : zscoreColIssues ts c s t = [] := by
  unfold zscoreColIssues
  have hf : ((List.range s.length).filter fun i =>
      (zFlags s t).getD i false && (s.getD i none).isSome) = [] := by
    apply List.filter_eq_nil_iff.mpr
    intro a _
    rw [h a]
    simp
  rw [hf]
  rfl

/-- The IQR test emits nothing when its mask is everywhere false. -/
lemma iqrColIssues_eq_nil {ts : List ℚ} {c : String} {s : List Cell} {f : ℚ}
    (h : ∀ i, (iqrFlags s f).getD i false = false) : iqrColIssues ts c s f = [] := by
  unfold iqrColIssues
  have hf : ((List.range s.length).filter fun i =>
      (iqrFlags s f).getD i false && (s.getD i none).isSome) = [] := by
    apply List.filter_eq_nil_iff.mpr
    intro a _
    rw [h a]
    simp
  rw [hf]
  rfl

/-- On fewer than two observations the z-score mask is everywhere false. -/
lemma zFlags_false_of_short {s : List Cell} {t : ℚ} (h : (dropna s).length < 2) :
    ∀ i, (zFlags s t).getD i false = false := by
  intro i
  unfold zFlags
  rw [if_pos h]
  exact getD_false_of_all (fun b hb => List.eq_of_mem_replicate hb) i

/-- On zero sample variance the z-score mask is everywhere false. -/
lemma zFlags_false_of_var_zero {s : List Cell} {t : ℚ}
    (hlen : ¬(dropna s).length < 2) (hv : sampleVar (dropna s) = 0) :
    ∀ i, (zFlags s t).getD i false = false := by
  intro i
  unfold zFlags
  rw [if_neg hlen, if_pos hv]
  exact getD_false_of_all (fun b hb => List.eq_of_mem_replicate hb) i

/-- On fewer than four observations the IQR mask is everywhere false. -/
lemma iqrFlags_false_of_short {s : List Cell} {f : ℚ} (h : (dropna s).length < 4) :
    ∀ i, (iqrFlags s f).getD i false = false := by
  intro i
  unfold iqrFlags
  rw [if_pos h]
  exact getD_false_of_all (fun b hb => List.eq_of_mem_replicate hb) i

/-- On a channel whose non-missing values are all equal, the IQR bounds
collapse to that value and the mask is everywhere false. -/
lemma iqrFlags_false_of_const {s : List Cell} {f : ℚ}
    (hlen : ¬(dropna s).length < 4) (hall : ∀ x ∈ dropna s, x = mean (dropna s)) :
    ∀ i, (iqrFlags s f).getD i false = false := by
  intro i
  unfold iqrFlags
  rw [if_neg hlen]
  apply getD_false_of_all
  intro b hb
  rcases List.mem_map.mp hb with ⟨x, hx, rfl⟩
  cases x with
  | none => rfl
  | some xv =>
    have hxv : xv ∈ dropna s := List.mem_filterMap.mpr ⟨some xv, hx, rfl⟩
    have hne : dropna s ≠ [] := by
      intro h0
      rw [h0] at hlen
      simp at hlen
    have hq1 : quantile (dropna s) (1 / 4) = mean (dropna s) :=
      quantile_const _ hne (by norm_num) (by norm_num) hall
    have hq3 : quantile (dropna s) (3 / 4) = mean (dropna s) :=
      quantile_const _ hne (by norm_num) (by norm_num) hall
    have hb1 : (iqrBounds (dropna s) f).1 = mean (dropna s) := by
      simp only [iqrBounds]
      rw [hq1, hq3]
      ring
    have hb2 : (iqrBounds (dropna s) f).2 = mean (dropna s) := by
      simp only [iqrBounds]
      rw [hq1, hq3]
      ring
    show (decide (xv < (iqrBounds (dropna s) f).1) ||
        decide ((iqrBounds (dropna s) f).2 < xv)) = false
    rw [hall xv hxv, hb1, hb2]
    simp

/-- C8.  Degenerate channels produce zero outlier findings and no division
by zero: zero sample variance yields no z-score and no IQR findings; fewer
than 2 non-missing values yield no z-score findings; fewer than 4 yield no
IQR findings. -/
theorem outlier_degenerate_spec :
    (∀ (ts : List ℚ) (c : String) (s : List Cell) (t f : ℚ),
        sampleVarOpt (dropna s) = some 0 →
        zscoreColIssues ts c s t = [] ∧ iqrColIssues ts c s f = []) ∧
    (∀ (ts : List ℚ) (c : String) (s : List Cell) (t : ℚ),
        (dropna s).length < 2 → zscoreColIssues ts c s t = []) ∧
    (∀ (ts : List ℚ) (c : String) (s : List Cell) (f : ℚ),
        (dropna s).length < 4 → iqrColIssues ts c s f = []) := by
  refine ⟨?_, ?_, ?_⟩
  · intro ts c s t f hv
    have hlen : ¬(dropna s).length < 2 := by
      intro h
      unfold sampleVarOpt at hv
      rw [if_pos h] at hv
      exact absurd hv (by simp)
    have hv0 : sampleVar (dropna s) = 0 := by
      unfold sampleVarOpt at hv
      rw [if_neg hlen] at hv
      exact Option.some_injective _ hv
    refine ⟨zscoreColIssues_eq_nil (zFlags_false_of_var_zero hlen hv0), ?_⟩
    by_cases h4 : (dropna s).length < 4
    · exact iqrColIssues_eq_nil (iqrFlags_false_of_short h4)
    · exact iqrColIssues_eq_nil (iqrFlags_false_of_const h4
        (allEq_of_sampleVar_zero (Nat.le_of_not_lt hlen) hv0))
  · intro ts c s t h
    exact zscoreColIssues_eq_nil (zFlags_false_of_short h)
  · intro ts c s f h
    exact iqrColIssues_eq_nil (iqrFlags_false_of_short h)

/-- C8, witness: the three halves applied at a constant channel, a
one-observation channel and a three-observation channel. -/
theorem outlier_degenerate_spec_witness :
    (zscoreColIssues [0, 1, 2, 3, 4] "v" [some 5, some 5, some 5, some 5, some 5] 3 = [] ∧
     iqrColIssues [0, 1, 2, 3, 4] "v" [some 5, some 5, some 5, some 5, some 5] (3 / 2) = []) ∧
    zscoreColIssues [0] "v" [some 1] 3 = [] ∧
    iqrColIssues [0, 1, 2] "v" [some 1, some 2, some 3] (3 / 2) = [] :=
  ⟨outlier_degenerate_spec.1 [0, 1, 2, 3, 4] "v" [some 5, some 5, some 5, some 5, some 5]
      3 (3 / 2) (by decide),
   outlier_degenerate_spec.2.1 [0] "v" [some 1] 3 (by decide),
   outlier_degenerate_spec.2.2 [0, 1, 2] "v" [some 1, some 2, some 3] (3 / 2) (by decide)⟩

/-! ## Claim C4 -/

/-- C4, counterexample.  On a table with a timestamp gap and a z-score
outlier at the same timestamp 13, the emission order of the concatenation is
gap first, outlier second; the issue list with the two swapped is also a
timestamp-ordered permutation, hence an admissible result of the pipeline
(whose sort is numpy quicksort, with no stability guarantee), yet it differs
from the stable sort of the concatenation.  The claimed tie order is
therefore not guaranteed by the code. -/
theorem sort_contract_not_stable :
    run_all_detections
        ⟨[0, 1, 2, 3, 13, 14, 15, 16, 17, 18, 19, 20],
         [("v", [some 0, some 0, some 0, some 0, some 100, some 0, some 0, some 0,
                 some 0, some 0, some 0, some 0])]⟩
        "time" ["v"] 3 (3 / 2) 50 2 "Z-Score"
        [{ timestamp := 13, column := "v", issueType := "Outlier (Z-Score)",
           details := .outlierZScore 100 },
         { timestamp := 13, column := "time", issueType := "Timestamp Gap",
           details := .timestampGap 10 1 }] ∧
    [{ timestamp := 13, column := "v", issueType := "Outlier (Z-Score)",
       details := .outlierZScore 100 },
     { timestamp := 13, column := "time", issueType := "Timestamp Gap",
       details := .timestampGap 10 1 }] ≠
      stableSortByTimestamp (detectionConcat
        ⟨[0, 1, 2, 3, 13, 14, 15, 16, 17, 18, 19, 20],
         [("v", [some 0, some 0, some 0, some 0, some 100, some 0, some 0, some 0,
                 some 0, some 0, some 0, some 0])]⟩
        "time" ["v"] 3 (3 / 2) 50 2 "Z-Score") := by
  exact ⟨by decide, by decide⟩

/-- C4, amended.  The detection pipeline relates every input to at least one
result; every result is a permutation of the concatenated issues
(gaps/missing, then the issues of the selected outlier tests, then drift)
sorted by timestamp ascending — the order among issues sharing a timestamp is
not specified, since the default sort of the source is not stable — and when
no issue is found the result is the empty list, not an error. -/
theorem detection_sort_contract (df : Table) (tc : String) (vc : List String)
    (zt iqf : ℚ) (dw : ℕ) (dth : ℚ) (m : String) :
    (∃ out, run_all_detections df tc vc zt iqf dw dth m out) ∧
    (∀ out, run_all_detections df tc vc zt iqf dw dth m out →
      out.Perm (detectionConcat df tc vc zt iqf dw dth m) ∧ sortedByTimestamp out) ∧
    (detectionConcat df tc vc zt iqf dw dth m = [] →
      ∀ out, run_all_detections df tc vc zt iqf dw dth m out → out = []) := by
  letI : IsTotal Issue (fun a b => a.timestamp ≤ b.timestamp) := ⟨fun a b => le_total _ _⟩
  letI : IsTrans Issue (fun a b => a.timestamp ≤ b.timestamp) :=
    ⟨fun a b c hab hbc => le_trans hab hbc⟩
  refine ⟨?_, ?_, ?_⟩
  · refine ⟨stableSortByTimestamp (detectionConcat df tc vc zt iqf dw dth m), ?_, ?_⟩
    · intro _
      exact ⟨(List.perm_insertionSort _ _).symm,
        List.sorted_insertionSort (fun a b : Issue => a.timestamp ≤ b.timestamp) _⟩
    · intro h0
      have hnil : detectionConcat df tc vc zt iqf dw dth m = [] := List.length_eq_zero.mp h0
      rw [hnil]
      rfl
  · intro out hrel
    by_cases hpos : 0 < (detectionConcat df tc vc zt iqf dw dth m).length
    · obtain ⟨hperm, hsorted⟩ := hrel.1 hpos
      exact ⟨hperm.symm, hsorted⟩
    · have h0 : (detectionConcat df tc vc zt iqf dw dth m).length = 0 := by omega
      have hout := hrel.2 h0
      rw [hout, List.length_eq_zero.mp h0]
      exact ⟨List.Perm.refl _, List.Pairwise.nil⟩
  · intro hnil out hrel
    have hout := hrel.2 (by rw [hnil]; rfl)
    rw [hout, hnil]

/-- C4, witness for the amended statement: the sort contract applied at the
tied-timestamps table and, for the empty case, at an issue-free table. -/
theorem detection_sort_contract_witness :
    ([{ timestamp := 13, column := "v", issueType := "Outlier (Z-Score)",
        details := .outlierZScore 100 },
      { timestamp := 13, column := "time", issueType := "Timestamp Gap",
        details := .timestampGap 10 1 }].Perm
      (detectionConcat
        ⟨[0, 1, 2, 3, 13, 14, 15, 16, 17, 18, 19, 20],
         [("v", [some 0, some 0, some 0, some 0, some 100, some 0, some 0, some 0,
                 some 0, some 0, some 0, some 0])]⟩
        "time" ["v"] 3 (3 / 2) 50 2 "Z-Score") ∧
     sortedByTimestamp
      [{ timestamp := 13, column := "v", issueType := "Outlier (Z-Score)",
         details := .outlierZScore 100 },
       { timestamp := 13, column := "time", issueType := "Timestamp Gap",
         details := .timestampGap 10 1 }]) ∧
    ([] : List Issue) = [] :=
  ⟨(detection_sort_contract
      ⟨[0, 1, 2, 3, 13, 14, 15, 16, 17, 18, 19, 20],
       [("v", [some 0, some 0, some 0, some 0, some 100, some 0, some 0, some 0,
               some 0, some 0, some 0, some 0])]⟩
      "time" ["v"] 3 (3 / 2) 50 2 "Z-Score").2.1
      [{ timestamp := 13, column := "v", issueType := "Outlier (Z-Score)",
         details := .outlierZScore 100 },
       { timestamp := 13, column := "time", issueType := "Timestamp Gap",
         details := .timestampGap 10 1 }] (by decide),
   (detection_sort_contract ⟨[0, 1], [("v", [some 1, some 2])]⟩ "time" ["v"]
      3 (3 / 2) 50 2 "Z-Score").2.2 (by decide) [] (by decide)⟩

/-! ## Claim C9 -/

/-- A maximal contiguous run of set bits of a mask: the bits from `p.1` to
`p.2` are set, and the run can be extended in neither direction. -/
def IsMaxRun (m : List Bool) (p : ℕ × ℕ) : Prop :=
  p.1 ≤ p.2 ∧ p.2 < m.length ∧
  (∀ k, p.1 ≤ k → k ≤ p.2 → m.getD k false = true) ∧
  (p.1 = 0 ∨ m.getD (p.1 - 1) false = false) ∧
  (p.2 + 1 = m.length ∨ m.getD (p.2 + 1) false = false)

/-- The lower bound all regions produced from a scan state satisfy: the open
region start if one is open, the current index otherwise. -/
def stBound (i : ℕ) : Option ℕ → ℕ
  | none => i
  | some s => s

/-- Invariant of the region scan at index `i`: with no open region the
previous bit (if any) is clear; with a region open since `s`, the bits from
`s` to `i-1` are set and the bit before `s` (if any) is clear. -/
def AuxInv (m : List Bool) (i : ℕ) : Option ℕ → Prop
  | none => i = 0 ∨ m.getD (i - 1) false = false
  | some s => s < i ∧ (∀ k, s ≤ k → k < i → m.getD k false = true) ∧
      (s = 0 ∨ m.getD (s - 1) false = false)

/-- A set bit lies inside the mask. -/
lemma getD_true_lt {m : List Bool} {k : ℕ} (h : m.getD k false = true) : k < m.length := by
  by_contra hk
  rw [List.getD_eq_default _ _ (le_of_not_lt hk)] at h
  exact Bool.false_ne_true h

/-- Reading the head of the remaining suffix of the scan. -/
lemma getD_of_drop_cons {m rest : List Bool} {i : ℕ} {b : Bool}
    (h : m.drop i = b :: rest) : m.getD i false = b := by
  have h0 : m[i]? = some b := by
    have hd := List.getElem?_drop m i 0
    rw [h] at hd
    simpa using hd.symm
  simp [List.getD, h0]

/-- Advancing the suffix of the scan by one element. -/
lemma drop_succ_of_drop_cons {m rest : List Bool} {i : ℕ} {b : Bool}
    (h : m.drop i = b :: rest) : m.drop (i + 1) = rest := by
  rw [← List.tail_drop, h]
  rfl

/-- Invariant-based specification of the region scan: every produced region
is a maximal run starting no earlier than the scan bound, the regions are
strictly separated in order, and every set bit at or after the bound is
covered by a produced region. -/
lemma driftRegionsAux_spec (rest : List Bool) :
    ∀ (m : List Bool) (i : ℕ) (st : Option ℕ), m.drop i = rest → AuxInv m i st →
    (∀ p ∈ driftRegionsAux rest i st, IsMaxRun m p ∧ stBound i st ≤ p.1) ∧
    (driftRegionsAux rest i st).Pairwise (fun p q => p.2 + 1 < q.1) ∧
    (∀ k, stBound i st ≤ k → m.getD k false = true →
      ∃ p ∈ driftRegionsAux rest i st, p.1 ≤ k ∧ k ≤ p.2) := by
  induction rest with
  | nil =>
    intro m i st hdrop hinv
    have hlen : m.length ≤ i := by
      have hl := congrArg List.length hdrop
      simp only [List.length_drop, List.length_nil] at hl
      omega
    match st with
    | none =>
      refine ⟨by simp [driftRegionsAux], by simp [driftRegionsAux], ?_⟩
      intro k hk htrue
      exact absurd (getD_true_lt htrue) (by simp [stBound] at hk; omega)
    | some s =>
      obtain ⟨hsi, htr, hleft⟩ := hinv
      have htl : m.getD (i - 1) false = true := htr (i - 1) (by omega) (by omega)
      have hlast : i - 1 < m.length := getD_true_lt htl
      have hieq : i = m.length := by omega
      refine ⟨?_, by simp [driftRegionsAux], ?_⟩
      · intro p hp
        simp only [driftRegionsAux, List.mem_singleton] at hp
        subst hp
        refine ⟨⟨by omega, by omega, fun k h1 h2 => htr k h1 (by omega), hleft,
          Or.inl (by omega)⟩, le_refl _⟩
      · intro k hk htrue
        have hklen : k < m.length := getD_true_lt htrue
        refine ⟨(s, i - 1), by simp [driftRegionsAux], ?_, by omega⟩
        simpa [stBound] using hk
  | cons b rest ih =>
    intro m i st hdrop hinv
    have hb : m.getD i false = b := getD_of_drop_cons hdrop
    have hdrop2 : m.drop (i + 1) = rest := drop_succ_of_drop_cons hdrop
    match st with
    | none =>
      cases b with
      | true =>
        have hinv2 : AuxInv m (i + 1) (some i) := by
          refine ⟨by omega, ?_, ?_⟩
          · intro k h1 h2
            have : k = i := by omega
            rw [this, hb]
          · simpa [AuxInv] using hinv
        have IH := ih m (i + 1) (some i) hdrop2 hinv2
        simp only [driftRegionsAux, if_pos rfl]
        refine ⟨?_, IH.2.1, ?_⟩
        · intro p hp
          exact ⟨(IH.1 p hp).1, (IH.1 p hp).2⟩
        · intro k hk htrue
          exact IH.2.2 k (by simpa [stBound] using hk) htrue
      | false =>
        have hinv2 : AuxInv m (i + 1) none := Or.inr (by simpa using hb)
        have IH := ih m (i + 1) none hdrop2 hinv2
        simp only [driftRegionsAux, Bool.false_eq_true, if_neg (by simp : ¬False)]
        refine ⟨?_, IH.2.1, ?_⟩
        · intro p hp
          refine ⟨(IH.1 p hp).1, ?_⟩
          have := (IH.1 p hp).2
          simp only [stBound] at this ⊢
          omega
        · intro k hk htrue
          have hki : k ≠ i := by
            intro hkeq
            rw [hkeq, hb] at htrue
            exact Bool.false_ne_true htrue
          refine IH.2.2 k ?_ htrue
          simp only [stBound] at hk ⊢
          omega
    | some s =>
      obtain ⟨hsi, htr, hleft⟩ := hinv
      cases b with
      | true =>
        have hinv2 : AuxInv m (i + 1) (some s) := by
          refine ⟨by omega, ?_, hleft⟩
          intro k h1 h2
          by_cases hk : k < i
          · exact htr k h1 hk
          · have : k = i := by omega
            rw [this, hb]
        have IH := ih m (i + 1) (some s) hdrop2 hinv2
        simpa only [driftRegionsAux, if_pos rfl] using IH
      | false =>
        have htl : m.getD (i - 1) false = true := htr (i - 1) (by omega) (by omega)
        have hlast : i - 1 < m.length := getD_true_lt htl
        have hinv2 : AuxInv m (i + 1) none := Or.inr (by simpa using hb)
        have IH := ih m (i + 1) none hdrop2 hinv2
        have hhead : IsMaxRun m (s, i - 1) := by
          refine ⟨by omega, by omega, fun k h1 h2 => htr k h1 (by omega), hleft, ?_⟩
          right
          have : i - 1 + 1 = i := by omega
          rw [this, hb]
        simp only [driftRegionsAux, Bool.false_eq_true, if_neg (by simp : ¬False)]
        refine ⟨?_, ?_, ?_⟩
        · intro p hp
          rcases List.mem_cons.mp hp with hp | hp
          · subst hp
            exact ⟨hhead, le_refl _⟩
          · refine ⟨(IH.1 p hp).1, ?_⟩
            have := (IH.1 p hp).2
            simp only [stBound] at this ⊢
            omega
        · refine List.Pairwise.cons ?_ IH.2.1
          intro q hq
          have := (IH.1 q hq).2
          simp only [stBound] at this
          omega
        · intro k hk htrue
          simp only [stBound] at hk
          by_cases hki : k ≤ i - 1
          · exact ⟨(s, i - 1), List.mem_cons_self _ _, hk, hki⟩
          · have hkne : k ≠ i := by
              intro hkeq
              rw [hkeq, hb] at htrue
              exact Bool.false_ne_true htrue
            obtain ⟨p, hp, hcov⟩ := IH.2.2 k (by simp only [stBound]; omega) htrue
            exact ⟨p, List.mem_cons_of_mem _ hp, hcov⟩

/-- Every region the scan produces is a maximal run of the mask. -/
lemma driftRegions_isMaxRun (mask : List Bool) :
    ∀ p ∈ driftRegions mask, IsMaxRun mask p := fun p hp =>
  ((driftRegionsAux_spec mask mask 0 none rfl (Or.inl rfl)).1 p hp).1

/-- The produced regions are strictly separated, in scan order. -/
lemma driftRegions_sep (mask : List Bool) :
    (driftRegions mask).Pairwise (fun p q => p.2 + 1 < q.1) :=
  (driftRegionsAux_spec mask mask 0 none rfl (Or.inl rfl)).2.1

/-- Every set bit of the mask is covered by a produced region. -/
lemma driftRegions_cover (mask : List Bool) (k : ℕ) (h : mask.getD k false = true) :
    ∃ p ∈ driftRegions mask, p.1 ≤ k ∧ k ≤ p.2 :=
  (driftRegionsAux_spec mask mask 0 none rfl (Or.inl rfl)).2.2 k (Nat.zero_le k) h

/-- Two maximal runs that share a position coincide. -/
lemma IsMaxRun.eq_of_overlap {m : List Bool} {p q : ℕ × ℕ} (hp : IsMaxRun m p)
    (hq : IsMaxRun m q) {k : ℕ} (hkp : p.1 ≤ k ∧ k ≤ p.2) (hkq : q.1 ≤ k ∧ k ≤ q.2) :
    p = q := by
  obtain ⟨hp12, hplen, hptr, hpl, hpr⟩ := hp
  obtain ⟨hq12, hqlen, hqtr, hql, hqr⟩ := hq
  have hstart : p.1 = q.1 := by
    by_contra hne
    rcases Nat.lt_or_ge p.1 q.1 with hlt | hge
    · have h1 : m.getD (q.1 - 1) false = true := hptr (q.1 - 1) (by omega) (by omega)
      rcases hql with h0 | h0
      · omega
      · rw [h0] at h1
        exact Bool.false_ne_true h1
    · have hlt : q.1 < p.1 := by omega
      have h1 : m.getD (p.1 - 1) false = true := hqtr (p.1 - 1) (by omega) (by omega)
      rcases hpl with h0 | h0
      · omega
      · rw [h0] at h1
        exact Bool.false_ne_true h1
  have hend : p.2 = q.2 := by
    by_contra hne
    rcases Nat.lt_or_ge p.2 q.2 with hlt | hge
    · have h1 : m.getD (p.2 + 1) false = true := hqtr (p.2 + 1) (by omega) (by omega)
      rcases hpr with h0 | h0
      · omega
      · rw [h0] at h1
        exact Bool.false_ne_true h1
    · have hlt : q.2 < p.2 := by omega
      have h1 : m.getD (q.2 + 1) false = true := hptr (q.2 + 1) (by omega) (by omega)
      rcases hqr with h0 | h0
      · omega
      · rw [h0] at h1
        exact Bool.false_ne_true h1
  exact Prod.ext hstart hend

/-- The produced regions are exactly the maximal runs of the mask. -/
lemma driftRegions_mem_iff (mask : List Bool) (p : ℕ × ℕ) :
    p ∈ driftRegions mask ↔ IsMaxRun mask p := by
  constructor
  · exact driftRegions_isMaxRun mask p
  · intro hp
    have h1 : mask.getD p.1 false = true := hp.2.2.1 p.1 (le_refl _) hp.1
    obtain ⟨q, hq, hcov⟩ := driftRegions_cover mask p.1 h1
    have := (driftRegions_isMaxRun mask q hq).eq_of_overlap hp hcov ⟨le_refl _, hp.1⟩
    exact this ▸ hq

/-- The drift mask has one bit per row of the channel. -/
lemma driftMask_length (s : List Cell) (w : ℕ) (th : ℚ) :
    (driftMask s w th).length = s.length := by
  unfold driftMask
  rcases hv : sampleVarOpt (dropna s) with _ | v <;> simp [hv]

/-- Reading a sorted list is monotone in the index. -/
lemma pairwise_le_getD {l : List ℚ} (h : l.Pairwise (· ≤ ·)) {i j : ℕ} (hij : i ≤ j)
    (hj : j < l.length) : l.getD i 0 ≤ l.getD j 0 := by
  rcases Nat.eq_or_lt_of_le hij with rfl | hlt
  · exact le_refl _
  · have hi : i < l.length := lt_of_lt_of_le hlt (le_of_lt hj)
    rw [List.getD_eq_getElem _ _ hi, List.getD_eq_getElem _ _ hj]
    exact List.pairwise_iff_getElem.mp h i j hi hj hlt

/-- C9.  When the drift detector scores a channel, it emits exactly one
`Drift` issue per maximal contiguous run of drifting positions (the emitted
regions are exactly the maximal runs of the drift mask, listed once each and
strictly separated, so no two overlap), and — for monotone timestamps, as
the data model assumes — the midpoint timestamp each issue carries lies
within the closed interval between the timestamps of the region ends. -/
theorem drift_regions_spec (ts : List ℚ) (c : String) (s : List Cell) (w : ℕ) (th : ℚ)
    (issues : List Issue) (hts : ts.Pairwise (· ≤ ·)) (hlen : s.length = ts.length)
    (hdet : detectDriftChannel ts c s w th = some issues) :
    issues = (driftRegions (driftMask s w th)).map (mkDriftIssue ts c (driftScoreSq s w)) ∧
    (∀ p, p ∈ driftRegions (driftMask s w th) ↔ IsMaxRun (driftMask s w th) p) ∧
    (driftRegions (driftMask s w th)).Pairwise (fun p q => p.2 + 1 < q.1) ∧
    ∀ p ∈ driftRegions (driftMask s w th),
      (mkDriftIssue ts c (driftScoreSq s w) p).timestamp = ts.getD ((p.1 + p.2) / 2) 0 ∧
      ts.getD p.1 0 ≤ ts.getD ((p.1 + p.2) / 2) 0 ∧
      ts.getD ((p.1 + p.2) / 2) 0 ≤ ts.getD p.2 0 := by
  have hissues : issues =
      (driftRegions (driftMask s w th)).map (mkDriftIssue ts c (driftScoreSq s w)) := by
    unfold detectDriftChannel at hdet
    by_cases h1 : (dropna s).length < w
    · rw [if_pos h1] at hdet
      exact absurd hdet (by simp)
    · rw [if_neg h1] at hdet
      by_cases h2 : sampleVarOpt (dropna s) = some 0
      · rw [if_pos h2] at hdet
        exact absurd hdet (by simp)
      · rw [if_neg h2] at hdet
        exact (Option.some_injective _ hdet).symm
  refine ⟨hissues, driftRegions_mem_iff _, driftRegions_sep _, ?_⟩
  intro p hp
  have hmr := driftRegions_isMaxRun _ p hp
  have hp12 : p.1 ≤ p.2 := hmr.1
  have hp2 : p.2 < ts.length := by
    have := hmr.2.1
    rw [driftMask_length] at this
    omega
  have hmid1 : p.1 ≤ (p.1 + p.2) / 2 := by omega
  have hmid2 : (p.1 + p.2) / 2 ≤ p.2 := by omega
  exact ⟨rfl, pairwise_le_getD hts hmid1 (by omega), pairwise_le_getD hts hmid2 hp2⟩

/-- C9, witness: the drift-region specification applied at a concrete scored
channel with one drifting region. -/
theorem drift_regions_spec_witness :
    [{ timestamp := 2, column := "v", issueType := "Drift",
       details := .drift 2 3 2 (9 / 20) }] =
      (driftRegions (driftMask [some 0, some 0, some 10, some 0, some 0] 2 (1 / 2))).map
        (mkDriftIssue [0, 1, 2, 3, 4] "v"
          (driftScoreSq [some 0, some 0, some 10, some 0, some 0] 2)) ∧
    (∀ p, p ∈ driftRegions (driftMask [some 0, some 0, some 10, some 0, some 0] 2 (1 / 2)) ↔
      IsMaxRun (driftMask [some 0, some 0, some 10, some 0, some 0] 2 (1 / 2)) p) ∧
    (driftRegions (driftMask [some 0, some 0, some 10, some 0, some 0] 2 (1 / 2))).Pairwise
      (fun p q => p.2 + 1 < q.1) ∧
    ∀ p ∈ driftRegions (driftMask [some 0, some 0, some 10, some 0, some 0] 2 (1 / 2)),
      (mkDriftIssue [0, 1, 2, 3, 4] "v"
        (driftScoreSq [some 0, some 0, some 10, some 0, some 0] 2) p).timestamp =
        ([0, 1, 2, 3, 4] : List ℚ).getD ((p.1 + p.2) / 2) 0 ∧
      ([0, 1, 2, 3, 4] : List ℚ).getD p.1 0 ≤
        ([0, 1, 2, 3, 4] : List ℚ).getD ((p.1 + p.2) / 2) 0 ∧
      ([0, 1, 2, 3, 4] : List ℚ).getD ((p.1 + p.2) / 2) 0 ≤
        ([0, 1, 2, 3, 4] : List ℚ).getD p.2 0 :=
  drift_regions_spec [0, 1, 2, 3, 4] "v" [some 0, some 0, some 10, some 0, some 0] 2 (1 / 2)
    [{ timestamp := 2, column := "v", issueType := "Drift", details := .drift 2 3 2 (9 / 20) }]
    (by decide) (by decide) (by decide)

/-! ## Claim C10 -/

/-- Writing a reference leaves the heap size unchanged. -/
lemma heapWrite_length (h : Heap) (r : ℕ) (t : Table) :
    (heapWrite h r t).length = h.length := List.length_set h r t

/-- Reading back a written reference. -/
lemma heapGet_write_self {h : Heap} {r : ℕ} (hr : r < h.length) (t : Table) :
    heapGet (heapWrite h r t) r = t := by
  unfold heapGet heapWrite
  rw [List.getD_eq_getElem _ _ (by rw [List.length_set]; exact hr)]
  simp [List.getElem_set]

/-- A write leaves every other reference unchanged. -/
lemma heapGet_write_ne (h : Heap) (r : ℕ) (t : Table) {j : ℕ} (hj : j ≠ r) :
    heapGet (heapWrite h r t) j = heapGet h j := by
  unfold heapGet heapWrite
  by_cases hjl : j < h.length
  · rw [List.getD_eq_getElem _ _ (by rw [List.length_set]; exact hjl),
      List.getD_eq_getElem _ _ hjl, List.getElem_set, if_neg (fun hh => hj hh.symm)]
  · rw [List.getD_eq_default _ _ (by rw [List.length_set]; exact le_of_not_lt hjl),
      List.getD_eq_default _ _ (le_of_not_lt hjl)]

/-- Allocation leaves the existing references unchanged. -/
lemma heapGet_append_lt (h : Heap) (t : Table) {j : ℕ} (hj : j < h.length) :
    heapGet (h ++ [t]) j = heapGet h j := by
  have hj2 : j < (h ++ [t]).length := by
    simp only [List.length_append, List.length_cons, List.length_nil]
    omega
  unfold heapGet
  rw [List.getD_eq_getElem _ _ hj2, List.getD_eq_getElem _ _ hj]
  exact List.getElem_append_left hj

/-- Reading back a fresh allocation. -/
lemma heapGet_append_self (h : Heap) (t : Table) : heapGet (h ++ [t]) h.length = t := by
  unfold heapGet
  rw [List.getD_eq_getElem _ _ (by simp)]
  rw [List.getElem_append_right (le_refl _)]
  simp

/-- The column-assignment loop of a cleaner, on the heap: it preserves the
heap size, touches only the written reference, and leaves there exactly the
value-semantics fold of the column updates. -/
lemma writeFold_spec (g : String → List Cell → List Cell) (vc : List String) :
    ∀ (h : Heap) (r : ℕ), r < h.length →
    (vc.foldl (fun hh c => heapWrite hh r (updateCol (heapGet hh r) c (g c))) h).length =
      h.length ∧
    (∀ j, j ≠ r →
      heapGet (vc.foldl (fun hh c => heapWrite hh r (updateCol (heapGet hh r) c (g c))) h) j =
        heapGet h j) ∧
    heapGet (vc.foldl (fun hh c => heapWrite hh r (updateCol (heapGet hh r) c (g c))) h) r =
      vc.foldl (fun t c => updateCol t c (g c)) (heapGet h r) := by
  induction vc with
  | nil =>
    intro h r hr
    exact ⟨rfl, fun j _ => rfl, rfl⟩
  | cons c cs ih =>
    intro h r hr
    have hw : (heapWrite h r (updateCol (heapGet h r) c (g c))).length = h.length :=
      heapWrite_length _ _ _
    obtain ⟨l1, l2, l3⟩ := ih (heapWrite h r (updateCol (heapGet h r) c (g c))) r
      (by rw [hw]; exact hr)
    refine ⟨?_, ?_, ?_⟩
    · simp only [List.foldl_cons]
      rw [l1, hw]
    · intro j hj
      simp only [List.foldl_cons]
      rw [l2 j hj, heapGet_write_ne _ _ _ hj]
    · simp only [List.foldl_cons]
      rw [l3, heapGet_write_self hr]

/-- Behaviour of the copy-then-update shape on the heap: it returns a fresh
reference (the old heap size), grows the heap by one, preserves every old
reference — in particular the input table — and makes the fresh reference
hold the value-semantics `copyUpdate` of the input. -/
lemma copyUpdateS_spec (g : String → List Cell → List Cell) (vc : List String)
    (h : Heap) (df : ℕ) (hdf : df < h.length) :
    (copyUpdateS h df g vc).2 = h.length ∧
    (copyUpdateS h df g vc).1.length = h.length + 1 ∧
    (∀ j, j < h.length → heapGet (copyUpdateS h df g vc).1 j = heapGet h j) ∧
    heapGet (copyUpdateS h df g vc).1 h.length = copyUpdate (heapGet h df) g vc := by
  obtain ⟨l1, l2, l3⟩ := writeFold_spec g vc (h ++ [heapGet h df]) h.length (by simp)
  refine ⟨rfl, ?_, ?_, ?_⟩
  · show (vc.foldl (fun hh c =>
        heapWrite hh h.length (updateCol (heapGet hh h.length) c (g c)))
        (h ++ [heapGet h df])).length = h.length + 1
    rw [l1]
    simp
  · intro j hj
    have hne : j ≠ h.length := by omega
    show heapGet (vc.foldl (fun hh c =>
        heapWrite hh h.length (updateCol (heapGet hh h.length) c (g c)))
        (h ++ [heapGet h df])) j = heapGet h j
    rw [l2 j hne, heapGet_append_lt h _ hj]
  · show heapGet (vc.foldl (fun hh c =>
        heapWrite hh h.length (updateCol (heapGet hh h.length) c (g c)))
        (h ++ [heapGet h df])) h.length = copyUpdate (heapGet h df) g vc
    rw [l3, heapGet_append_self]
    rfl

/-- The stateful outlier dispatch agrees with `copyUpdateS` of the pure
dispatch, whichever branch is selected. -/
lemma cleanOutlierStepS_spec (h : Heap) (df : ℕ) (hdf : df < h.length)
    (vc : List String) (m a : String) (zt iqf : ℚ) (rollw : ℕ) :
    (cleanOutlierStepS h df vc m a zt iqf rollw).2 = h.length ∧
    (cleanOutlierStepS h df vc m a zt iqf rollw).1.length = h.length + 1 ∧
    (∀ j, j < h.length →
      heapGet (cleanOutlierStepS h df vc m a zt iqf rollw).1 j = heapGet h j) ∧
    heapGet (cleanOutlierStepS h df vc m a zt iqf rollw).1 h.length =
      cleanOutlierStep (heapGet h df) vc m a zt iqf rollw := by
  unfold cleanOutlierStepS cleanOutlierStep
  split_ifs with ha hm
  · exact copyUpdateS_spec _ vc h df hdf
  · exact copyUpdateS_spec _ vc h df hdf
  · exact copyUpdateS_spec _ vc h df hdf

/-- The stateful cleaning pipeline: preserves the input reference, returns
the fresh reference `h.length + 2`, and leaves there the value-semantics
`clean_series` of the input table. -/
lemma clean_seriesS_spec (h : Heap) (df : ℕ) (hdf : df < h.length)
    (vc : List String) (m a : String) (zt iqf : ℚ) (rollw mg : ℕ) :
    heapGet (clean_seriesS h df vc m a zt iqf rollw mg).1 df = heapGet h df ∧
    (clean_seriesS h df vc m a zt iqf rollw mg).2 = h.length + 2 ∧
    heapGet (clean_seriesS h df vc m a zt iqf rollw mg).1
        (clean_seriesS h df vc m a zt iqf rollw mg).2 =
      clean_series (heapGet h df) vc m a zt iqf rollw mg := by
  have hlen1 : h.length < (h ++ [heapGet h df]).length := by simp
  obtain ⟨s1ref, s1len, s1pre, s1val⟩ :=
    cleanOutlierStepS_spec (h ++ [heapGet h df]) h.length hlen1 vc m a zt iqf rollw
  have happ : (h ++ [heapGet h df]).length = h.length + 1 := by simp
  have hb2 : (cleanOutlierStepS (h ++ [heapGet h df]) h.length vc m a zt iqf rollw).2 <
      (cleanOutlierStepS (h ++ [heapGet h df]) h.length vc m a zt iqf rollw).1.length := by
    omega
  obtain ⟨s2ref, s2len, s2pre, s2val⟩ :=
    copyUpdateS_spec (fun _ s => interpolateCol s mg) vc
      (cleanOutlierStepS (h ++ [heapGet h df]) h.length vc m a zt iqf rollw).1
      (cleanOutlierStepS (h ++ [heapGet h df]) h.length vc m a zt iqf rollw).2 hb2
  have hcs : clean_seriesS h df vc m a zt iqf rollw mg =
      copyUpdateS (cleanOutlierStepS (h ++ [heapGet h df]) h.length vc m a zt iqf rollw).1
        (cleanOutlierStepS (h ++ [heapGet h df]) h.length vc m a zt iqf rollw).2
        (fun _ s => interpolateCol s mg) vc := rfl
  have hdflt1 : df <
      (cleanOutlierStepS (h ++ [heapGet h df]) h.length vc m a zt iqf rollw).1.length := by
    omega
  have hdflt0 : df < (h ++ [heapGet h df]).length := by omega
  rw [hcs]
  refine ⟨?_, ?_, ?_⟩
  · rw [s2pre df hdflt1, s1pre df hdflt0, heapGet_append_lt h _ hdf]
  · rw [s2ref, s1len, happ]
  · rw [s2ref, s2val]
    have hval : heapGet
        (cleanOutlierStepS (h ++ [heapGet h df]) h.length vc m a zt iqf rollw).1
        (cleanOutlierStepS (h ++ [heapGet h df]) h.length vc m a zt iqf rollw).2 =
        cleanOutlierStep (heapGet h df) vc m a zt iqf rollw := by
      rw [s1ref]
      rw [s1val, heapGet_append_self]
    rw [hval]
    rfl

/-- Column names survive a column assignment. -/
lemma colNames_updateCol (t : Table) (c : String) (f : List Cell → List Cell) :
    colNames (updateCol t c f) = colNames t := by
  unfold colNames updateCol
  rw [List.map_map]
  apply List.map_congr_left
  intro p _
  by_cases hp : p.1 = c <;> simp [hp]

/-- Column lengths survive a length-preserving column assignment. -/
lemma colLengths_updateCol (t : Table) (c : String) (f : List Cell → List Cell)
    (hf : ∀ s, (f s).length = s.length) :
    colLengths (updateCol t c f) = colLengths t := by
  unfold colLengths updateCol
  rw [List.map_map]
  apply List.map_congr_left
  intro p _
  by_cases hp : p.1 = c <;> simp [hp, hf]

/-- The timestamp column survives a column assignment. -/
lemma ts_updateCol (t : Table) (c : String) (f : List Cell → List Cell) :
    (updateCol t c f).ts = t.ts := rfl

/-- Shape preservation of the copy-then-update shape, for length-preserving
column transforms. -/
lemma copyUpdate_shape (g : String → List Cell → List Cell) (vc : List String)
    (hg : ∀ c s, (g c s).length = s.length) :
    ∀ t : Table, colNames (copyUpdate t g vc) = colNames t ∧
      colLengths (copyUpdate t g vc) = colLengths t ∧ (copyUpdate t g vc).ts = t.ts := by
  induction vc with
  | nil => intro t; exact ⟨rfl, rfl, rfl⟩
  | cons c cs ih =>
    intro t
    obtain ⟨h1, h2, h3⟩ := ih (updateCol t c (g c))
    refine ⟨?_, ?_, ?_⟩
    · show colNames (copyUpdate (updateCol t c (g c)) g cs) = colNames t
      rw [h1, colNames_updateCol]
    · show colLengths (copyUpdate (updateCol t c (g c)) g cs) = colLengths t
      rw [h2, colLengths_updateCol t c (g c) (hg c)]
    · show (copyUpdate (updateCol t c (g c)) g cs).ts = t.ts
      rw [h3, ts_updateCol]

/-- Every column transform of the cleaners preserves the column length. -/
lemma length_removeByFlags (s : List Cell) (flags : List Bool) :
    (removeByFlags s flags).length = s.length := by simp [removeByFlags]

/-- The interpolation transform preserves the column length. -/
lemma length_interpolateCol (s : List Cell) (k : ℕ) :
    (interpolateCol s k).length = s.length := by simp [interpolateCol]

/-- The rolling replacement preserves the column length. -/
lemma length_rollingReplaceCol (s : List Cell) (t : ℚ) (w : ℕ) :
    (rollingReplaceCol s t w).length = s.length := by simp [rollingReplaceCol]

/-- The cleaning pipeline preserves the shape of the table: same column
names, same column lengths, same timestamp column. -/
lemma clean_series_shape (df : Table) (vc : List String) (m a : String)
    (zt iqf : ℚ) (rollw mg : ℕ) :
    colNames (clean_series df vc m a zt iqf rollw mg) = colNames df ∧
    colLengths (clean_series df vc m a zt iqf rollw mg) = colLengths df ∧
    (clean_series df vc m a zt iqf rollw mg).ts = df.ts := by
  have hinterp := copyUpdate_shape (fun _ s => interpolateCol s mg) vc
    (fun c s => length_interpolateCol s mg)
  have hstep : colNames (cleanOutlierStep df vc m a zt iqf rollw) = colNames df ∧
      colLengths (cleanOutlierStep df vc m a zt iqf rollw) = colLengths df ∧
      (cleanOutlierStep df vc m a zt iqf rollw).ts = df.ts := by
    unfold cleanOutlierStep remove_outliers_zscore remove_outliers_iqr
      replace_outliers_rolling
    split_ifs with ha hm
    · exact copyUpdate_shape _ vc (fun c s => length_removeByFlags s _) df
    · exact copyUpdate_shape _ vc (fun c s => length_removeByFlags s _) df
    · exact copyUpdate_shape _ vc (fun c s => length_rollingReplaceCol s zt rollw) df
  obtain ⟨i1, i2, i3⟩ := hinterp (cleanOutlierStep df vc m a zt iqf rollw)
  exact ⟨by rw [clean_series, interpolate_gaps, i1, hstep.1],
    by rw [clean_series, interpolate_gaps, i2, hstep.2.1],
    by rw [clean_series, interpolate_gaps, i3, hstep.2.2]⟩

/-- C10.  Neither pipeline mutates the input table: the cleaning pipeline
works on an independent copy (the input reference holds the same table after
the call, and the result is a fresh reference holding the value-semantics
`clean_series` of the input), the cleaned table has the same columns, the
same column lengths and the same timestamp column as the input, and the
detection pass returns the heap unchanged (it performs no write at all). -/
theorem pipelines_frame_spec (h : Heap) (df : ℕ) (hdf : df < h.length)
    (vc : List String) (m a : String) (zt iqf : ℚ) (rollw mg : ℕ)
    (tc : String) (zt2 iqf2 : ℚ) (dw : ℕ) (dth : ℚ) (meth : String) :
    heapGet (clean_seriesS h df vc m a zt iqf rollw mg).1 df = heapGet h df ∧
    (clean_seriesS h df vc m a zt iqf rollw mg).2 ≠ df ∧
    heapGet (clean_seriesS h df vc m a zt iqf rollw mg).1
        (clean_seriesS h df vc m a zt iqf rollw mg).2 =
      clean_series (heapGet h df) vc m a zt iqf rollw mg ∧
    colNames (clean_series (heapGet h df) vc m a zt iqf rollw mg) = colNames (heapGet h df) ∧
    colLengths (clean_series (heapGet h df) vc m a zt iqf rollw mg) =
      colLengths (heapGet h df) ∧
    (clean_series (heapGet h df) vc m a zt iqf rollw mg).ts = (heapGet h df).ts ∧
    (run_all_detectionsS h df tc vc zt2 iqf2 dw dth meth).1 = h := by
  obtain ⟨c1, c2, c3⟩ := clean_seriesS_spec h df hdf vc m a zt iqf rollw mg
  obtain ⟨s1, s2, s3⟩ := clean_series_shape (heapGet h df) vc m a zt iqf rollw mg
  have hne : (clean_seriesS h df vc m a zt iqf rollw mg).2 ≠ df := by omega
  exact ⟨c1, hne, c3, s1, s2, s3, rfl⟩

/-- C10, witness: the frame specification applied at a concrete one-table
heap. -/
theorem pipelines_frame_spec_witness :
    heapGet (clean_seriesS [⟨[0, 1], [("v", [some 1, none])]⟩] 0 ["v"] "Z-Score"
        "Remove (set NaN)" 3 (3 / 2) 10 5).1 0 =
      heapGet [⟨[0, 1], [("v", [some 1, none])]⟩] 0 ∧
    (clean_seriesS [⟨[0, 1], [("v", [some 1, none])]⟩] 0 ["v"] "Z-Score"
        "Remove (set NaN)" 3 (3 / 2) 10 5).2 ≠ 0 ∧
    heapGet (clean_seriesS [⟨[0, 1], [("v", [some 1, none])]⟩] 0 ["v"] "Z-Score"
        "Remove (set NaN)" 3 (3 / 2) 10 5).1
      (clean_seriesS [⟨[0, 1], [("v", [some 1, none])]⟩] 0 ["v"] "Z-Score"
        "Remove (set NaN)" 3 (3 / 2) 10 5).2 =
      clean_series (heapGet [⟨[0, 1], [("v", [some 1, none])]⟩] 0) ["v"] "Z-Score"
        "Remove (set NaN)" 3 (3 / 2) 10 5 ∧
    colNames (clean_series (heapGet [⟨[0, 1], [("v", [some 1, none])]⟩] 0) ["v"] "Z-Score"
        "Remove (set NaN)" 3 (3 / 2) 10 5) =
      colNames (heapGet [⟨[0, 1], [("v", [some 1, none])]⟩] 0) ∧
    colLengths (clean_series (heapGet [⟨[0, 1], [("v", [some 1, none])]⟩] 0) ["v"] "Z-Score"
        "Remove (set NaN)" 3 (3 / 2) 10 5) =
      colLengths (heapGet [⟨[0, 1], [("v", [some 1, none])]⟩] 0) ∧
    (clean_series (heapGet [⟨[0, 1], [("v", [some 1, none])]⟩] 0) ["v"] "Z-Score"
        "Remove (set NaN)" 3 (3 / 2) 10 5).ts =
      (heapGet [⟨[0, 1], [("v", [some 1, none])]⟩] 0).ts ∧
    (run_all_detectionsS [⟨[0, 1], [("v", [some 1, none])]⟩] 0 "time" ["v"]
        3 (3 / 2) 50 2 "Z-Score").1 = [⟨[0, 1], [("v", [some 1, none])]⟩] :=
  pipelines_frame_spec [⟨[0, 1], [("v", [some 1, none])]⟩] 0 (by decide) ["v"] "Z-Score"
    "Remove (set NaN)" 3 (3 / 2) 10 5 "time" 3 (3 / 2) 50 2 "Z-Score"

end SensorQC
